import Mathlib

/-!
# Helix module host — verification of the dependency resolver, dynamic loader
# and supervisor state machine

Shallow embedding of the Helix sources (`src/core/dependency_resolver.cpp`,
`src/core/module_loader.cpp`, `src/daemon/daemon.cpp`, headers under
`include/helix/`) together with proofs about the embedded operations.

Modelling conventions:
* `std::string` is modelled as `String`; character-level processing is done on
  `List Char` (`String.data`).
* C++ unordered containers (`unordered_map`, `unordered_set`) are modelled as
  insertion-ordered association lists / deduplicated lists.  Their C++
  iteration order is unspecified; the model fixes it to insertion order.  All
  order-insensitive results (sets of names, success flags) are unaffected by
  this choice.
* External effects (dlopen/dlsym/dlclose, module lifecycle hooks, the
  filesystem, archive extraction) are modelled as oracle parameters supplied in
  an environment record; every oracle answer is a function of the module name.
* Unbounded C++ loops/recursion are modelled with a fuel parameter; fuel
  exhaustion returns the failure/unchanged result and the top-level entry
  points supply provably sufficient fuel where results are evaluated.
-/

namespace Helix

/-! ## Semver utility
    (`DependencyResolver::parse_version_components`, `compare_versions`,
    `parse_version_requirement`, `version_satisfies`;
    dependency_resolver.cpp lines 117-154 and 326-370) -/

/-- `\d` of the C++ regexes. -/
def isDigitChar (c : Char) : Bool := c.isDigit

/-- `\s` of the C++ regexes (the six ASCII whitespace characters matched by
    `std::regex` in the default locale). -/
def isSpaceChar (c : Char) : Bool :=
  c = ' ' || c = '\t' || c = '\n' || c = '\r' || c = '\x0b' || c = '\x0c'

/-- Numeric value of a digit run (`std::stoi` applied to the matched digits;
    the C++ `int` overflow on absurdly long digit runs is not modelled). -/
def digitsVal (l : List Char) : Nat :=
  l.foldl (fun a c => a * 10 + (c.toNat - 48)) 0

/-- Match a `\d+` at the front of the input; returns its value and the rest. -/
def parseNatPre (l : List Char) : Option (Nat × List Char) :=
  match l.takeWhile isDigitChar with
  | [] => none
  | ds => some (digitsVal ds, l.dropWhile isDigitChar)

/-- Match `\d+\.\d+\.\d+` at the front of the input; returns the numeric
    triple and the rest of the input. -/
def parseTriplePre (l : List Char) : Option ((Nat × Nat × Nat) × List Char) :=
  match parseNatPre l with
  | none => none
  | some (a, r1) =>
    match r1 with
    | '.' :: r2 =>
      match parseNatPre r2 with
      | none => none
      | some (b, r3) =>
        match r3 with
        | '.' :: r4 =>
          match parseNatPre r4 with
          | none => none
          | some (c, r5) => some ((a, b, c), r5)
        | _ => none
    | _ => none

/-- `DependencyResolver::parse_version_components` (list level):
    `regex_match(version, ^(\d+)\.(\d+)\.(\d+))` — a full match, so the string
    must consist of exactly the numeric triple, with no suffix. -/
def parseVersionComponentsL (l : List Char) : Option (Nat × Nat × Nat) :=
  match parseTriplePre l with
  | some (t, []) => some t
  | _ => none

/-- `DependencyResolver::parse_version_components` (dependency_resolver.cpp
    lines 357-370). -/
def parse_version_components (s : String) : Option (Nat × Nat × Nat) :=
  parseVersionComponentsL s.data

/-- Three-way comparison of parsed triples, exactly as the chain of
    comparisons in `compare_versions` (lines 350-354). -/
def cmpTriples : Nat × Nat × Nat → Nat × Nat × Nat → Int
  | (a1, b1, c1), (a2, b2, c2) =>
    if a1 ≠ a2 then (if a1 > a2 then 1 else -1)
    else if b1 ≠ b2 then (if b1 > b2 then 1 else -1)
    else if c1 ≠ c2 then (if c1 > c2 then 1 else -1)
    else 0

/-- `DependencyResolver::compare_versions` (list level): invalid versions are
    considered equal (return 0). -/
def compareVersionsL (l1 l2 : List Char) : Int :=
  match parseVersionComponentsL l1, parseVersionComponentsL l2 with
  | some t1, some t2 => cmpTriples t1 t2
  | _, _ => 0

/-- `DependencyResolver::compare_versions` (dependency_resolver.cpp lines
    341-355). -/
def compare_versions (version1 version2 : String) : Int :=
  compareVersionsL version1.data version2.data

/-- Boolean test that `p` is an initial segment of `l`. -/
def listStarts : List Char → List Char → Bool
  | [], _ => true
  | _, [] => false
  | p :: ps, c :: cs => p = c && listStarts ps cs

/-- The operator alternatives of `^(>=|<=|>|<|~|==)?\s*(\d+\.\d+\.\d+.*)$`, in
    the order the regex alternation tries them; the empty list encodes the
    absent-operator (`?`) case, tried last. -/
def opCandidates : List (List Char) :=
  [['>', '='], ['<', '='], ['>'], ['<'], ['~'], ['=', '='], []]

/-- Match `\s*(\d+\.\d+\.\d+.*)$` against `l`: skip whitespace greedily, then
    require the remainder to start with a numeric triple.  The capture group
    (the returned version text) is the whole remainder including any suffix. -/
def matchVersionTail (l : List Char) : Option (List Char) :=
  let r := l.dropWhile isSpaceChar
  match parseTriplePre r with
  | some _ => some r
  | none => none

/-- `DependencyResolver::parse_version_requirement` (list level): try each
    operator alternative in regex order, then the version tail.  Returns
    `(operator_out, version_out)`. -/
def parseVersionRequirementL (l : List Char) : Option (List Char × List Char) :=
  (opCandidates.filterMap fun op =>
    if listStarts op l then
      (matchVersionTail (l.drop op.length)).map fun v => (op, v)
    else none).head?

/-- `DependencyResolver::parse_version_requirement` (dependency_resolver.cpp
    lines 326-339). -/
def parse_version_requirement (requirement : String) :
    Option (List Char × List Char) :=
  parseVersionRequirementL requirement.data

/-- `DependencyResolver::version_satisfies` (list level). -/
def versionSatisfiesL (available required : List Char) : Bool :=
  if required = [] then true
  else
    match parseVersionRequirementL required with
    | none => false
    | some (op, version) =>
      let cmp := compareVersionsL available version
      if op = ['=', '='] || op = [] then cmp = 0
      else if op = ['>', '='] then cmp ≥ 0
      else if op = ['>'] then cmp > 0
      else if op = ['<', '='] then cmp ≤ 0
      else if op = ['<'] then cmp < 0
      else if op = ['~'] then
        match parseVersionComponentsL available, parseVersionComponentsL version with
        | some (am, ai, ap), some (rm, ri, rp) =>
          am = rm && ai = ri && ap ≥ rp
        | _, _ => false
      else false

/-- `DependencyResolver::version_satisfies` (dependency_resolver.cpp lines
    117-154). -/
def version_satisfies (available_version required_version : String) : Bool :=
  versionSatisfiesL available_version.data required_version.data

/-! ### Lemmas about the semver utility -/

theorem cmpTriples_self (t : Nat × Nat × Nat) : cmpTriples t t = 0 := by
  obtain ⟨a, b, c⟩ := t
  simp [cmpTriples]

theorem cmpTriples_antisymm (t1 t2 : Nat × Nat × Nat) :
    cmpTriples t1 t2 = -cmpTriples t2 t1 := by
  obtain ⟨a1, b1, c1⟩ := t1
  obtain ⟨a2, b2, c2⟩ := t2
  unfold cmpTriples
  dsimp only
  split_ifs <;> omega

theorem compareVersionsL_antisymm (l1 l2 : List Char) :
    compareVersionsL l1 l2 = -compareVersionsL l2 l1 := by
  unfold compareVersionsL
  cases parseVersionComponentsL l1 <;> cases parseVersionComponentsL l2 <;>
    dsimp only <;> first | simp | exact cmpTriples_antisymm _ _

theorem compareVersionsL_self (l : List Char) : compareVersionsL l l = 0 := by
  unfold compareVersionsL
  cases parseVersionComponentsL l <;> dsimp only <;> simp [cmpTriples_self]

theorem parseNatPre_digit_head {l : List Char} {v : Nat} {r : List Char}
    (h : parseNatPre l = some (v, r)) :
    ∃ c cs, l = c :: cs ∧ isDigitChar c = true := by
  cases l with
  | nil => simp [parseNatPre] at h
  | cons c cs =>
    refine ⟨c, cs, rfl, ?_⟩
    by_contra hc
    simp only [Bool.not_eq_true] at hc
    simp [parseNatPre, List.takeWhile, hc] at h

theorem not_space_of_digit {c : Char} (h : isDigitChar c = true) :
    isSpaceChar c = false := by
  unfold isDigitChar at h
  by_contra hs
  simp only [Bool.not_eq_false, isSpaceChar, Bool.or_eq_true, decide_eq_true_eq] at hs
  rcases hs with ((((h1 | h1) | h1) | h1) | h1) | h1 <;> subst h1 <;> simp at h

theorem parseTriplePre_digit_head {l : List Char} {t : Nat × Nat × Nat}
    {r : List Char} (h : parseTriplePre l = some (t, r)) :
    ∃ c cs, l = c :: cs ∧ isDigitChar c = true := by
  unfold parseTriplePre at h
  cases hn : parseNatPre l with
  | none => rw [hn] at h; simp at h
  | some p => exact parseNatPre_digit_head hn

theorem matchVersionTail_of_full {l : List Char} {t : Nat × Nat × Nat}
    (h : parseVersionComponentsL l = some t) : matchVersionTail l = some l := by
  unfold parseVersionComponentsL at h
  cases hp : parseTriplePre l with
  | none => rw [hp] at h; simp at h
  | some p =>
    obtain ⟨c, cs, rfl, hc⟩ := parseTriplePre_digit_head hp
    have hdrop : (c :: cs).dropWhile isSpaceChar = c :: cs := by
      simp [List.dropWhile, not_space_of_digit hc]
    unfold matchVersionTail
    simp only [hdrop, hp]

theorem versionSatisfiesL_ge_self {l : List Char} {t : Nat × Nat × Nat}
    (h : parseVersionComponentsL l = some t) :
    versionSatisfiesL l ('>' :: '=' :: l) = true := by
  have hm := matchVersionTail_of_full h
  unfold versionSatisfiesL parseVersionRequirementL opCandidates
  simp [List.filterMap, listStarts, hm, compareVersionsL_self]

theorem versionSatisfiesL_eq_self {l : List Char} {t : Nat × Nat × Nat}
    (h : parseVersionComponentsL l = some t) :
    versionSatisfiesL l ('=' :: '=' :: l) = true := by
  have hm := matchVersionTail_of_full h
  unfold versionSatisfiesL parseVersionRequirementL opCandidates
  simp [List.filterMap, listStarts, hm, compareVersionsL_self]

theorem versionSatisfiesL_tilde_self {l : List Char} {t : Nat × Nat × Nat}
    (h : parseVersionComponentsL l = some t) :
    versionSatisfiesL l ('~' :: l) = true := by
  have hm := matchVersionTail_of_full h
  unfold versionSatisfiesL parseVersionRequirementL opCandidates
  obtain ⟨a, b, c⟩ := t
  simp [List.filterMap, listStarts, hm, h]

/-- C6: for all version strings a and b that are exactly numeric triples
    `X.Y.Z` (i.e. `parse_version_components` succeeds, which is the code's
    full-match `^(\d+)\.(\d+)\.(\d+)$` test), `compare(a,b) = -compare(b,a)`,
    `compare(a,a) = 0`, and `satisfies(a, ">="+a)`, `satisfies(a, "=="+a)`,
    `satisfies(a, "~"+a)` all hold. -/
theorem claim_C6_semver_algebra (a b : String) (ta tb : Nat × Nat × Nat)
    (ha : parse_version_components a = some ta)
    (hb : parse_version_components b = some tb) :
    compare_versions a b = -compare_versions b a ∧
    compare_versions a a = 0 ∧
    version_satisfies a (">=" ++ a) = true ∧
    version_satisfies a ("==" ++ a) = true ∧
    version_satisfies a ("~" ++ a) = true := by
  refine ⟨compareVersionsL_antisymm _ _, compareVersionsL_self _, ?_, ?_, ?_⟩
  · unfold version_satisfies
    have hd : (">=" ++ a).data = '>' :: '=' :: a.data := by
      rw [String.data_append]; rfl
    rw [hd]
    exact versionSatisfiesL_ge_self ha
  · unfold version_satisfies
    have hd : ("==" ++ a).data = '=' :: '=' :: a.data := by
      rw [String.data_append]; rfl
    rw [hd]
    exact versionSatisfiesL_eq_self ha
  · unfold version_satisfies
    have hd : ("~" ++ a).data = '~' :: a.data := by
      rw [String.data_append]; rfl
    rw [hd]
    exact versionSatisfiesL_tilde_self ha

theorem claim_C6_semver_algebra_witness :
    parse_version_components "1.2.3" = some (1, 2, 3) ∧
    parse_version_components "4.5.6" = some (4, 5, 6) ∧
    (compare_versions "1.2.3" "4.5.6" = -compare_versions "4.5.6" "1.2.3" ∧
     compare_versions "1.2.3" "1.2.3" = 0 ∧
     version_satisfies "1.2.3" (">=" ++ "1.2.3") = true ∧
     version_satisfies "1.2.3" ("==" ++ "1.2.3") = true ∧
     version_satisfies "1.2.3" ("~" ++ "1.2.3") = true) :=
  ⟨by decide, by decide,
   claim_C6_semver_algebra "1.2.3" "4.5.6" (1, 2, 3) (4, 5, 6)
     (by decide) (by decide)⟩

/-- C10: whenever at least one of the two version strings is not exactly a
    numeric triple `X.Y.Z` (the full-match parse fails, e.g. because of a
    `+`/`-` suffix), `compare_versions` returns 0, treating the versions as
    equal; consequently for the concrete pair `"1.2.3+x"` and `"2.0.0"`,
    whose numeric triples differ, the `==`, `>=` and `<=` requirements are
    all reported satisfied. -/
theorem claim_C10_invalid_versions_compare_equal (a b : String)
    (h : parse_version_components a = none ∨ parse_version_components b = none) :
    compare_versions a b = 0 ∧
    (parseTriplePre "1.2.3+x".data = some ((1, 2, 3), ['+', 'x']) ∧
     parse_version_components "1.2.3+x" = none ∧
     parse_version_components "2.0.0" = some (2, 0, 0) ∧
     version_satisfies "1.2.3+x" "==2.0.0" = true ∧
     version_satisfies "1.2.3+x" ">=2.0.0" = true ∧
     version_satisfies "1.2.3+x" "<=2.0.0" = true) := by
  constructor
  · unfold compare_versions compareVersionsL parse_version_components at *
    rcases h with h | h
    · rw [h]
    · rw [h]
      cases parseVersionComponentsL a.data <;> rfl
  · decide

theorem claim_C10_invalid_versions_compare_equal_witness :
    parse_version_components "1.2.3+x" = none ∧
    compare_versions "1.2.3+x" "1.0.0" = 0 :=
  ⟨by decide,
   (claim_C10_invalid_versions_compare_equal "1.2.3+x" "1.0.0"
     (Or.inl (by decide))).1⟩

/-! ## Manifest model (include/helix/manifest.h)

`Dependency` and `ModuleManifest` keep the fields consumed by the resolver,
loader and supervisor; the purely descriptive manifest fields (description,
author, license, config, tags, …) and the entry-point symbol names (resolved
through `dlsym`, abstracted by the loader oracle) are omitted. -/

structure Dependency where
  name : String
  version : String
  optional : Bool
deriving DecidableEq

structure ModuleManifest where
  name : String
  version : String
  binary_path : String
  dependencies : List Dependency
  minimum_core_version : String
  minimum_api_version : String
deriving DecidableEq

/-! ## Dependency resolver (src/core/dependency_resolver.cpp)

The C++ class state is `modules_ : unordered_map<string, ModuleManifest>` plus
two adjacency maps rebuilt from scratch by `build_dependency_graph()` after
every modification.  The model keeps the insertion-ordered list of manifests
and computes both adjacency views on demand — equivalent because the C++
code rebuilds them from `modules_` on every mutation. -/

abbrev Resolver := List ModuleManifest

/-- `modules_.find(n)` — first manifest with the given name. -/
def findModule (mods : Resolver) (n : String) : Option ModuleManifest :=
  mods.find? (fun m => m.name == n)

/-- `DependencyResolver::has_module`. -/
def has_module (mods : Resolver) (n : String) : Bool :=
  (findModule mods n).isSome

/-- `DependencyResolver::add_module` — reject duplicates, else insert. -/
def add_module (mods : Resolver) (m : ModuleManifest) : Bool × Resolver :=
  if has_module mods m.name then (false, mods) else (true, mods ++ [m])

/-- `DependencyResolver::remove_module`. -/
def remove_module (mods : Resolver) (n : String) : Resolver :=
  mods.eraseP (fun m => m.name == n)

/-- Insertion into an insertion-ordered set (`unordered_set::insert`). -/
def insertName (l : List String) (n : String) : List String :=
  if n ∈ l then l else l ++ [n]

/-- Forward adjacency `dependency_graph_[n]` (build_dependency_graph, lines
    156-177): all declared dependencies except optional ones that are not
    registered; a mandatory dependency contributes an edge even when its
    target is not registered.  First-occurrence deduplication models the
    `unordered_set`. -/
def depsOf (mods : Resolver) (n : String) : List String :=
  match findModule mods n with
  | none => []
  | some m =>
    ((m.dependencies.filter
        (fun d => !(d.optional && !(has_module mods d.name)))).map
      Dependency.name).foldl insertName []

/-- Reverse adjacency `reverse_graph_[n]`: the registered modules whose kept
    dependency set contains `n`, in `modules_` iteration order. -/
def dependentsOf (mods : Resolver) (n : String) : List String :=
  (mods.filter (fun m => decide (n ∈ depsOf mods m.name))).map ModuleManifest.name

/-- `DependencyResolver::find_missing_dependencies` (lines 275-294): an
    unregistered target is itself missing; otherwise each of the target's own
    mandatory dependencies is checked for registration.  Note: only the
    targets' direct dependencies are inspected, and no version requirement is
    consulted. -/
def find_missing_dependencies (mods : Resolver) (targets : List String) :
    List String :=
  targets.foldl (fun missing t =>
    match findModule mods t with
    | none => insertName missing t
    | some m =>
      m.dependencies.foldl (fun acc d =>
        if !d.optional && !(has_module mods d.name) then insertName acc d.name
        else acc) missing) []

/-- Names that can ever enter the dependency closure: every registered name
    and every declared dependency name (fuel bound for the worklist). -/
def uniNames (mods : Resolver) : List String :=
  mods.flatMap (fun m => m.name :: m.dependencies.map Dependency.name)

/-- Worklist loop of `topological_sort` (lines 196-209): pop a node, append
    its unseen forward neighbours to both the queue and the seen set. -/
def closureLoop (mods : Resolver) : Nat → List String → List String → List String
  | 0, _, acc => acc
  | _ + 1, [], acc => acc
  | fuel + 1, cur :: rest, acc =>
    let newOnes := (depsOf mods cur).filter (fun d => decide (d ∉ acc))
    closureLoop mods fuel (rest ++ newOnes) (acc ++ newOnes)

/-- Registered targets, pushed in target order (lines 187-193). -/
def closureSeeds (mods : Resolver) (targets : List String) : List String :=
  targets.filter (fun t => has_module mods t)

/-- `all_needed`: the dependency closure of the registered targets. -/
def allNeededOf (mods : Resolver) (targets : List String) : List String :=
  let seedQ := closureSeeds mods targets
  closureLoop mods (seedQ.length + (uniNames mods).length + 1) seedQ
    (seedQ.foldl insertName [])

/-- `in_degree[v]`: number of forward neighbours of `v` inside the subset
    (lines 217-229).  `Int`-valued because the C++ counter is an `int`. -/
def inDeg0 (mods : Resolver) (needed : List String) (v : String) : Int :=
  ((depsOf mods v).filter (fun d => decide (d ∈ needed))).length

/-- Pointwise map update. -/
def updFn (f : String → Int) (k : String) (x : Int) : String → Int :=
  fun v => if v = k then x else f v

/-- Body of the `for (dependent : reverse_graph_[current])` loop (lines
    244-254): decrement the in-degree of an in-subset dependent and push it
    when the decremented value reaches zero. -/
def kahnStep (needed : List String) (p : (String → Int) × List String)
    (dep : String) : (String → Int) × List String :=
  if decide (dep ∈ needed) then
    (updFn p.1 dep (p.1 dep - 1),
     if p.1 dep - 1 = 0 then p.2 ++ [dep] else p.2)
  else p

/-- Kahn's-algorithm loop (lines 239-255): pop the queue front, append it to
    the order, decrement the in-degree of each in-subset dependent (reverse
    edge), and push dependents whose in-degree just reached zero. -/
def kahnLoop (mods : Resolver) (needed : List String) :
    Nat → (String → Int) → List String → List String → List String
  | 0, _, _, order => order
  | _ + 1, _, [], order => order
  | fuel + 1, indeg, cur :: rest, order =>
    let step := (dependentsOf mods cur).foldl (kahnStep needed) (indeg, [])
    kahnLoop mods needed fuel step.1 (rest ++ step.2) (order ++ [cur])

/-- `DependencyResolver::topological_sort` (lines 179-259): compute the
    closure, seed the queue with in-degree-zero nodes in subset order, run
    Kahn's loop; succeed iff every subset node was ordered. -/
def topological_sort (mods : Resolver) (targets : List String) :
    Bool × List String :=
  let needed := allNeededOf mods targets
  let q0 := needed.filter (fun v => decide (inDeg0 mods needed v = 0))
  let order := kahnLoop mods needed (needed.length + 1)
    (fun v => inDeg0 mods needed v) q0 []
  (order.length = needed.length, order)

mutual
/-- `DependencyResolver::detect_cycle_dfs` (lines 296-324).  The recursion
    stack is a list with the most recent node first; the C++ `rec_stack`
    erase-on-normal-exit is the `tail` in `dfsDeps`' base case, and — exactly
    as in the C++ early `return true` — the stack is *not* popped on the
    cycle-found paths.  Fuel is consumed on every step (the supplied fuel is
    large enough that exhaustion, which returns with nothing added, is
    unreachable on the inputs evaluated below). -/
def detect_cycle_dfs (mods : Resolver) :
    Nat → String → List String → List String → List String →
    Bool × List String × List String × List String
  | 0, _, visited, stack, cycles => (false, visited, stack, cycles)
  | fuel + 1, node, visited, stack, cycles =>
    dfsDeps mods fuel (depsOf mods node) node
      (insertName visited node) (node :: stack) cycles

/-- The `for (dep : deps)` loop body of `detect_cycle_dfs`. -/
def dfsDeps (mods : Resolver) :
    Nat → List String → String → List String → List String → List String →
    Bool × List String × List String × List String
  | _, [], _, visited, stack, cycles => (false, visited, stack.tail, cycles)
  | 0, _ :: _, _, visited, stack, cycles => (false, visited, stack.tail, cycles)
  | fuel + 1, dep :: rest, node, visited, stack, cycles =>
    if decide (dep ∈ stack) then
      (true, visited, stack, insertName (insertName cycles node) dep)
    else if decide (dep ∈ visited) then
      dfsDeps mods fuel rest node visited stack cycles
    else
      match detect_cycle_dfs mods fuel dep visited stack cycles with
      | (true, v2, st2, cy2) => (true, v2, st2, insertName cy2 node)
      | (false, v2, st2, cy2) => dfsDeps mods fuel rest node v2 st2 cy2
end

/-- `DependencyResolver::detect_circular_dependencies` (lines 261-273): DFS
    from each unvisited target, threading `visited`, `rec_stack` and
    `cycle_nodes`; the per-root boolean result is discarded. -/
def detect_circular_dependencies (mods : Resolver) (targets : List String) :
    List String :=
  (targets.foldl (fun (st : List String × List String × List String) t =>
    if decide (t ∈ st.1) then st
    else
      let r := detect_cycle_dfs mods ((targets.length + (uniNames mods).length + 2) * ((uniNames mods).length + 2))
        t st.1 st.2.1 st.2.2
      (r.2.1, r.2.2.1, r.2.2.2)) ([], [], [])).2.2

/-- `ResolutionResult` (include/helix/dependency_resolver.h). -/
structure ResolutionResult where
  load_order : List String
  missing_deps : List String
  circular_deps : List String
  success : Bool
deriving DecidableEq

/-- `DependencyResolver::resolve_dependencies` (lines 43-77): empty target
    list means all modules; missing check, then cycle check, then topological
    sort (whose partially filled `load_order` is kept on failure, as the C++
    output parameter is). -/
def resolve_dependencies (mods : Resolver) (target_modules : List String) :
    ResolutionResult :=
  let targets := if target_modules.isEmpty then mods.map ModuleManifest.name
    else target_modules
  let missing := find_missing_dependencies mods targets
  if missing.isEmpty then
    let circ := detect_circular_dependencies mods targets
    if circ.isEmpty then
      let ts := topological_sort mods targets
      ⟨ts.2, [], [], ts.1⟩
    else ⟨[], [], circ, false⟩
  else ⟨[], missing, [], false⟩

/-! ### Concrete registries used by the resolver claims -/

/-- Shorthand manifest (only resolver-relevant fields populated). -/
def mf (n v : String) (deps : List Dependency) : ModuleManifest :=
  ⟨n, v, "", deps, "", ""⟩

/-- Shorthand mandatory dependency. -/
def mdep (n req : String) : Dependency := ⟨n, req, false⟩

/-- `a` mandatorily requires `b >= 2.0.0`; `b` is registered at `1.5.0`. -/
def regVersionGap : Resolver :=
  [mf "a" "1.0.0" [mdep "b" ">=2.0.0"], mf "b" "1.5.0" []]

/-- `a → b → c` with `c` not registered: the missing mandatory dependency is
    two hops from the target. -/
def regDeepMissing : Resolver :=
  [mf "a" "1.0.0" [mdep "b" ""], mf "b" "1.0.0" [mdep "c" ""]]

/-- Two disjoint cycles `a ↔ b` and `c ↔ d`, both reachable from `t`. -/
def regTwoCycles : Resolver :=
  [mf "t" "1.0.0" [mdep "a" "", mdep "c" ""],
   mf "a" "1.0.0" [mdep "b" ""],
   mf "b" "1.0.0" [mdep "a" ""],
   mf "c" "1.0.0" [mdep "d" ""],
   mf "d" "1.0.0" [mdep "c" ""]]

/-- A reachable cycle `x ↔ y` together with a missing mandatory dep `m`. -/
def regCycleAndMissing : Resolver :=
  [mf "x" "1.0.0" [mdep "y" "", mdep "m" ""],
   mf "y" "1.0.0" [mdep "x" ""]]

/-- Two independent modules registered in the order `b`, `a`. -/
def regPairBA : Resolver :=
  [mf "b" "1.0.0" [], mf "a" "1.0.0" []]

/-! ## Dynamic loader (src/core/module_loader.cpp)

The per-module C++ record is `{name, path, handle, interface, initialized,
running}`; the model keeps the two flags (name is the key; path and handle
are opaque).  A registered record always has all four entry-point callables —
`load_module` registers only after `resolve_entry_points` succeeded — so the
C++ null checks on the callables never fire for registered records.  dlopen /
dlsym / dlclose outcomes and the hook return codes are oracles keyed by the
module name. -/

structure LoaderRec where
  initialized : Bool
  running : Bool
deriving DecidableEq

abbrev LoaderState := List (String × LoaderRec)

structure LoaderEnv where
  dlopenOk : String → Bool
  symbolsOk : String → Bool
  dlcloseOk : String → Bool
  initRet : String → Int
  startRet : String → Int
  stopRet : String → Int

namespace ModuleLoader

/-- `loaded_modules_.find(n)`. -/
def lkup (s : LoaderState) (n : String) : Option LoaderRec :=
  (s.find? (fun p => p.1 == n)).map Prod.snd

/-- In-place mutation of the record held for `n`. -/
def setRec (s : LoaderState) (n : String) (r : LoaderRec) : LoaderState :=
  s.map (fun p => if p.1 = n then (n, r) else p)

/-- `ModuleLoader::load_module` (module_loader.cpp lines 29-60): refuse a
    name that is already loaded; dlopen; resolve the four symbols (closing
    the handle again on failure); register with both flags false. -/
def load_module (env : LoaderEnv) (s : LoaderState) (n : String) :
    Bool × LoaderState :=
  if (lkup s n).isSome then (false, s)
  else if !env.dlopenOk n then (false, s)
  else if !env.symbolsOk n then (false, s)
  else (true, s ++ [(n, ⟨false, false⟩)])

/-- `ModuleLoader::stop_module` (lines 158-187): require loaded and running;
    a nonzero stop hook fails with `running` left true. -/
def stop_module (env : LoaderEnv) (s : LoaderState) (n : String) :
    Bool × LoaderState :=
  match lkup s n with
  | none => (false, s)
  | some r =>
    if !r.running then (false, s)
    else if env.stopRet n ≠ 0 then (false, s)
    else (true, setRec s n ⟨r.initialized, false⟩)

/-- `ModuleLoader::initialize_module` (lines 93-121): require loaded and not
    yet initialized; a nonzero init hook fails without toggling the flag. -/
def initialize_module (env : LoaderEnv) (s : LoaderState) (n : String) :
    Bool × LoaderState :=
  match lkup s n with
  | none => (false, s)
  | some r =>
    if r.initialized then (false, s)
    else if env.initRet n ≠ 0 then (false, s)
    else (true, setRec s n ⟨true, r.running⟩)

/-- `ModuleLoader::start_module` (lines 123-156): require loaded, initialized
    and not running; a nonzero start hook fails without toggling. -/
def start_module (env : LoaderEnv) (s : LoaderState) (n : String) :
    Bool × LoaderState :=
  match lkup s n with
  | none => (false, s)
  | some r =>
    if !r.initialized then (false, s)
    else if r.running then (false, s)
    else if env.startRet n ≠ 0 then (false, s)
    else (true, setRec s n ⟨r.initialized, true⟩)

/-- `ModuleLoader::unload_module` (lines 62-91): stop first when running
    (aborting on stop failure); invoke the void `destroy` hook when
    initialized (no state effect); `dlclose`; only on a successful `dlclose`
    is the record erased — a failing close returns false with the record
    still registered. -/
def unload_module (env : LoaderEnv) (s : LoaderState) (n : String) :
    Bool × LoaderState :=
  match lkup s n with
  | none => (false, s)
  | some r =>
    let stopStep : Bool × LoaderState :=
      if r.running then stop_module env s n else (true, s)
    if !stopStep.1 then (false, stopStep.2)
    else if env.dlcloseOk n then (true, stopStep.2.eraseP (fun p => p.1 == n))
    else (false, stopStep.2)

end ModuleLoader

/-- The loader operations of C9. -/
inductive LoaderOp where
  | load (n : String)
  | unload (n : String)
  | init (n : String)
  | start (n : String)
  | stop (n : String)

/-- One loader operation. -/
def stepLoader (env : LoaderEnv) (op : LoaderOp) (s : LoaderState) :
    Bool × LoaderState :=
  match op with
  | .load n => ModuleLoader.load_module env s n
  | .unload n => ModuleLoader.unload_module env s n
  | .init n => ModuleLoader.initialize_module env s n
  | .start n => ModuleLoader.start_module env s n
  | .stop n => ModuleLoader.stop_module env s n

/-- The C++ `unordered_map` cannot hold two records for one name; every
    reachable loader state has pairwise-distinct keys. -/
def LoaderKeysOk (s : LoaderState) : Prop := (s.map Prod.fst).Nodup

/-- C9's invariant: a running record is initialized. -/
def RunImpliesInit (s : LoaderState) : Prop :=
  ∀ n r, ModuleLoader.lkup s n = some r → r.running = true → r.initialized = true

/-! ### Association-list lemmas for the loader state -/

theorem lkup_cons (k : String) (v : LoaderRec) (t : LoaderState) (n : String) :
    ModuleLoader.lkup ((k, v) :: t) n =
      if k = n then some v else ModuleLoader.lkup t n := by
  unfold ModuleLoader.lkup
  by_cases h : k = n
  · rw [List.find?_cons_of_pos _ (by simp [h]), if_pos h]
    rfl
  · rw [List.find?_cons_of_neg _ (by simp [h]), if_neg h]

theorem setRec_cons (k : String) (v : LoaderRec) (t : LoaderState)
    (n : String) (r : LoaderRec) :
    ModuleLoader.setRec ((k, v) :: t) n r =
      (if k = n then (n, r) else (k, v)) :: ModuleLoader.setRec t n r := rfl

theorem lkup_setRec_other (s : LoaderState) (n : String) (r : LoaderRec)
    (m : String) (h : m ≠ n) :
    ModuleLoader.lkup (ModuleLoader.setRec s n r) m = ModuleLoader.lkup s m := by
  induction s with
  | nil => rfl
  | cons p t ih =>
    obtain ⟨k, v⟩ := p
    rw [setRec_cons]
    by_cases hk : k = n
    · subst hk
      rw [if_pos rfl, lkup_cons, lkup_cons, if_neg (fun hh => h hh.symm),
        if_neg (fun hh => h hh.symm), ih]
    · rw [if_neg hk, lkup_cons, lkup_cons, ih]

theorem lkup_setRec_self (s : LoaderState) (n : String) (r : LoaderRec) :
    ModuleLoader.lkup (ModuleLoader.setRec s n r) n =
      (ModuleLoader.lkup s n).map (fun _ => r) := by
  induction s with
  | nil => rfl
  | cons p t ih =>
    obtain ⟨k, v⟩ := p
    rw [setRec_cons]
    by_cases hk : k = n
    · subst hk
      rw [if_pos rfl, lkup_cons, lkup_cons, if_pos rfl, if_pos rfl]
      rfl
    · rw [if_neg hk, lkup_cons, lkup_cons, if_neg hk, if_neg hk, ih]

theorem map_fst_setRec (s : LoaderState) (n : String) (r : LoaderRec) :
    (ModuleLoader.setRec s n r).map Prod.fst = s.map Prod.fst := by
  induction s with
  | nil => rfl
  | cons p t ih =>
    obtain ⟨k, v⟩ := p
    rw [setRec_cons]
    by_cases hk : k = n
    · subst hk
      simp [ih]
    · simp [hk, ih]

theorem lkup_eq_none_iff (s : LoaderState) (n : String) :
    ModuleLoader.lkup s n = none ↔ n ∉ s.map Prod.fst := by
  induction s with
  | nil => simp [ModuleLoader.lkup]
  | cons p t ih =>
    obtain ⟨k, v⟩ := p
    rw [lkup_cons]
    by_cases hk : k = n
    · subst hk
      simp
    · simp [hk, ih, Ne.symm hk]

theorem lkup_append_one (s : LoaderState) (n : String) (r : LoaderRec)
    (m : String) :
    ModuleLoader.lkup (s ++ [(n, r)]) m =
      match ModuleLoader.lkup s m with
      | some v => some v
      | none => if n = m then some r else none := by
  induction s with
  | nil =>
    have h0 : ModuleLoader.lkup ([] : LoaderState) m = none := rfl
    rw [List.nil_append, h0, lkup_cons]
    rfl
  | cons p t ih =>
    obtain ⟨k, v⟩ := p
    rw [List.cons_append, lkup_cons, lkup_cons]
    by_cases hk : k = m
    · rw [if_pos hk, if_pos hk]
    · rw [if_neg hk, if_neg hk, ih]

theorem lkup_eraseP_other (s : LoaderState) (n m : String) (h : m ≠ n) :
    ModuleLoader.lkup (s.eraseP (fun p => p.1 == n)) m = ModuleLoader.lkup s m := by
  induction s with
  | nil => rfl
  | cons p t ih =>
    obtain ⟨k, v⟩ := p
    by_cases hk : k = n
    · have he : ((k, v) :: t).eraseP (fun p => p.1 == n) = t := by
        simp [List.eraseP_cons, hk]
      rw [he, lkup_cons, if_neg (fun hh : k = m => h (hh ▸ hk))]
    · have he : ((k, v) :: t).eraseP (fun p => p.1 == n)
          = (k, v) :: t.eraseP (fun p => p.1 == n) := by
        simp [List.eraseP_cons, hk]
      rw [he, lkup_cons, lkup_cons, ih]

theorem lkup_eraseP_self (s : LoaderState) (n : String) (hw : LoaderKeysOk s) :
    ModuleLoader.lkup (s.eraseP (fun p => p.1 == n)) n = none := by
  induction s with
  | nil => rfl
  | cons p t ih =>
    obtain ⟨k, v⟩ := p
    unfold LoaderKeysOk at hw
    simp only [List.map_cons, List.nodup_cons] at hw
    by_cases hk : k = n
    · have he : ((k, v) :: t).eraseP (fun p => p.1 == n) = t := by
        simp [List.eraseP_cons, hk]
      rw [he, lkup_eq_none_iff]
      rw [hk] at hw
      exact hw.1
    · have he : ((k, v) :: t).eraseP (fun p => p.1 == n)
          = (k, v) :: t.eraseP (fun p => p.1 == n) := by
        simp [List.eraseP_cons, hk]
      rw [he, lkup_cons, if_neg hk]
      exact ih hw.2

theorem keysOk_eraseP (s : LoaderState) (n : String) (hw : LoaderKeysOk s) :
    LoaderKeysOk (s.eraseP (fun p => p.1 == n)) := by
  unfold LoaderKeysOk at *
  exact hw.sublist ((List.eraseP_sublist s).map Prod.fst)

theorem keysOk_setRec (s : LoaderState) (n : String) (r : LoaderRec)
    (hw : LoaderKeysOk s) : LoaderKeysOk (ModuleLoader.setRec s n r) := by
  unfold LoaderKeysOk at *
  rw [map_fst_setRec]
  exact hw

/-! ### Loader invariant lemmas (C8, C9) -/

theorem stop_module_cases (env : LoaderEnv) (s : LoaderState) (n : String)
    (r : LoaderRec) (hl : ModuleLoader.lkup s n = some r)
    (hr : r.running = true) :
    (env.stopRet n ≠ 0 ∧ ModuleLoader.stop_module env s n = (false, s)) ∨
    (env.stopRet n = 0 ∧ ModuleLoader.stop_module env s n
      = (true, ModuleLoader.setRec s n ⟨r.initialized, false⟩)) := by
  unfold ModuleLoader.stop_module
  rw [hl]
  dsimp only
  rw [if_neg (by simp [hr])]
  by_cases hz : env.stopRet n ≠ 0
  · rw [if_pos hz]
    exact Or.inl ⟨hz, rfl⟩
  · rw [if_neg hz]
    exact Or.inr ⟨not_not.mp hz, rfl⟩

theorem eraseP_inv (s : LoaderState) (n : String)
    (hw : LoaderKeysOk s) (hinv : RunImpliesInit s) :
    LoaderKeysOk (s.eraseP (fun p => p.1 == n)) ∧
    RunImpliesInit (s.eraseP (fun p => p.1 == n)) := by
  refine ⟨keysOk_eraseP _ _ hw, ?_⟩
  intro m r hm hr
  by_cases hmn : m = n
  · subst hmn
    rw [lkup_eraseP_self _ _ hw] at hm
    cases hm
  · rw [lkup_eraseP_other _ _ _ hmn] at hm
    exact hinv m r hm hr

theorem load_module_inv (env : LoaderEnv) (s : LoaderState) (n : String)
    (hw : LoaderKeysOk s) (hinv : RunImpliesInit s) :
    LoaderKeysOk (ModuleLoader.load_module env s n).2 ∧
    RunImpliesInit (ModuleLoader.load_module env s n).2 := by
  unfold ModuleLoader.load_module
  split_ifs with h1 h2 h3
  · exact ⟨hw, hinv⟩
  · exact ⟨hw, hinv⟩
  · exact ⟨hw, hinv⟩
  · have hnone : ModuleLoader.lkup s n = none := by
      cases hl : ModuleLoader.lkup s n
      · rfl
      · rw [hl] at h1
        simp at h1
    have hn : n ∉ s.map Prod.fst := (lkup_eq_none_iff s n).mp hnone
    constructor
    · unfold LoaderKeysOk at *
      rw [List.map_append]
      rw [List.nodup_append]
      refine ⟨hw, by simp, by simpa using hn⟩
    · intro m r hm hr
      rw [lkup_append_one] at hm
      cases hl : ModuleLoader.lkup s m with
      | some v =>
        rw [hl] at hm
        dsimp only at hm
        cases hm
        exact hinv m _ hl hr
      | none =>
        rw [hl] at hm
        dsimp only at hm
        by_cases hnm : n = m
        · rw [if_pos hnm] at hm
          cases hm
          simp at hr
        · rw [if_neg hnm] at hm
          cases hm

theorem initialize_module_inv (env : LoaderEnv) (s : LoaderState) (n : String)
    (hw : LoaderKeysOk s) (hinv : RunImpliesInit s) :
    LoaderKeysOk (ModuleLoader.initialize_module env s n).2 ∧
    RunImpliesInit (ModuleLoader.initialize_module env s n).2 := by
  unfold ModuleLoader.initialize_module
  cases hl : ModuleLoader.lkup s n with
  | none => exact ⟨hw, hinv⟩
  | some r =>
    dsimp only
    split_ifs with h1 h2
    · exact ⟨hw, hinv⟩
    · exact ⟨hw, hinv⟩
    · refine ⟨keysOk_setRec _ _ _ hw, ?_⟩
      intro m r' hm hr
      by_cases hmn : m = n
      · subst hmn
        rw [lkup_setRec_self, hl] at hm
        cases hm
        rfl
      · rw [lkup_setRec_other _ _ _ _ hmn] at hm
        exact hinv m r' hm hr

theorem start_module_inv (env : LoaderEnv) (s : LoaderState) (n : String)
    (hw : LoaderKeysOk s) (hinv : RunImpliesInit s) :
    LoaderKeysOk (ModuleLoader.start_module env s n).2 ∧
    RunImpliesInit (ModuleLoader.start_module env s n).2 := by
  unfold ModuleLoader.start_module
  cases hl : ModuleLoader.lkup s n with
  | none => exact ⟨hw, hinv⟩
  | some r =>
    dsimp only
    split_ifs with h1 h2 h3
    · exact ⟨hw, hinv⟩
    · exact ⟨hw, hinv⟩
    · exact ⟨hw, hinv⟩
    · refine ⟨keysOk_setRec _ _ _ hw, ?_⟩
      intro m r' hm hr
      by_cases hmn : m = n
      · subst hmn
        rw [lkup_setRec_self, hl] at hm
        cases hm
        simp only [Bool.not_eq_true] at h1
        simpa using h1
      · rw [lkup_setRec_other _ _ _ _ hmn] at hm
        exact hinv m r' hm hr

theorem stop_module_inv (env : LoaderEnv) (s : LoaderState) (n : String)
    (hw : LoaderKeysOk s) (hinv : RunImpliesInit s) :
    LoaderKeysOk (ModuleLoader.stop_module env s n).2 ∧
    RunImpliesInit (ModuleLoader.stop_module env s n).2 := by
  unfold ModuleLoader.stop_module
  cases hl : ModuleLoader.lkup s n with
  | none => exact ⟨hw, hinv⟩
  | some r =>
    dsimp only
    split_ifs with h1 h2
    · exact ⟨hw, hinv⟩
    · exact ⟨hw, hinv⟩
    · refine ⟨keysOk_setRec _ _ _ hw, ?_⟩
      intro m r' hm hr
      by_cases hmn : m = n
      · subst hmn
        rw [lkup_setRec_self, hl] at hm
        cases hm
        simp at hr
      · rw [lkup_setRec_other _ _ _ _ hmn] at hm
        exact hinv m r' hm hr

theorem unload_module_inv (env : LoaderEnv) (s : LoaderState) (n : String)
    (hw : LoaderKeysOk s) (hinv : RunImpliesInit s) :
    LoaderKeysOk (ModuleLoader.unload_module env s n).2 ∧
    RunImpliesInit (ModuleLoader.unload_module env s n).2 := by
  unfold ModuleLoader.unload_module
  cases hl : ModuleLoader.lkup s n with
  | none => exact ⟨hw, hinv⟩
  | some r =>
    dsimp only
    by_cases hr : r.running
    · rw [if_pos hr]
      rcases stop_module_cases env s n r hl hr with ⟨hz, heq⟩ | ⟨hz, heq⟩
      · rw [heq]
        dsimp only
        exact ⟨hw, hinv⟩
      · rw [heq]
        have hst := stop_module_inv env s n hw hinv
        rw [heq] at hst
        dsimp only at hst ⊢
        by_cases hc : env.dlcloseOk n
        · rw [if_pos hc]
          exact eraseP_inv _ _ hst.1 hst.2
        · rw [if_neg hc]
          exact hst
    · rw [if_neg hr]
      dsimp only
      by_cases hc : env.dlcloseOk n
      · rw [if_pos hc]
        exact eraseP_inv _ _ hw hinv
      · rw [if_neg hc]
        exact ⟨hw, hinv⟩

/-- C9: the implication `running = true → initialized = true` is an invariant
    of the loader state (together with key uniqueness, which the C++
    `unordered_map` provides by construction), preserved by all five loader
    operations: `load` registers records with both flags false, `start` sets
    `running` only when `initialized` already holds, `stop` clears `running`,
    `init` sets `initialized`, and `unload` either erases the record or
    leaves the flags as the embedded stop left them. -/
theorem claim_C9_loader_running_implies_initialized (env : LoaderEnv)
    (op : LoaderOp) (s : LoaderState)
    (hw : LoaderKeysOk s) (hinv : RunImpliesInit s) :
    LoaderKeysOk (stepLoader env op s).2 ∧
    RunImpliesInit (stepLoader env op s).2 := by
  cases op with
  | load n => exact load_module_inv env s n hw hinv
  | unload n => exact unload_module_inv env s n hw hinv
  | init n => exact initialize_module_inv env s n hw hinv
  | start n => exact start_module_inv env s n hw hinv
  | stop n => exact stop_module_inv env s n hw hinv

theorem claim_C9_loader_running_implies_initialized_witness :
    LoaderKeysOk ([("m", ⟨true, false⟩)] : LoaderState) ∧
    RunImpliesInit
      (stepLoader ⟨fun _ => true, fun _ => true, fun _ => true,
        fun _ => 0, fun _ => 0, fun _ => 0⟩ (.start "m")
        [("m", ⟨true, false⟩)]).2 := by
  have hw : LoaderKeysOk ([("m", ⟨true, false⟩)] : LoaderState) := by
    unfold LoaderKeysOk
    decide
  have hinv : RunImpliesInit ([("m", ⟨true, false⟩)] : LoaderState) := by
    intro n r hm hr
    rw [lkup_cons] at hm
    by_cases h : "m" = n
    · rw [if_pos h] at hm
      cases hm
      rfl
    · rw [if_neg h] at hm
      cases hm
  exact ⟨hw,
    (claim_C9_loader_running_implies_initialized _ (.start "m") _ hw hinv).2⟩

/-! ### C8: unload drops the record only on a successful close -/

/-- An oracle environment whose `dlclose` always fails. -/
def envCloseFail : LoaderEnv :=
  ⟨fun _ => true, fun _ => true, fun _ => false, fun _ => 0, fun _ => 0,
   fun _ => 0⟩

/-- C8 counterexample: for a loaded, initialized, non-running module `m`
    whose `dlclose` fails, `unload_module` reports failure **and the record
    is still registered** — the claim's "the record is still dropped
    regardless of the close outcome" is false on the code
    (module_loader.cpp lines 82-87: `loaded_modules_.erase(it)` is only
    reached after a successful `dlclose`). -/
theorem claim_C8_counterexample :
    (ModuleLoader.unload_module envCloseFail [("m", ⟨true, false⟩)] "m").1
      = false ∧
    ModuleLoader.lkup
      (ModuleLoader.unload_module envCloseFail [("m", ⟨true, false⟩)] "m").2 "m"
      = some ⟨true, false⟩ := by
  constructor <;> rfl

/-- C8 (amended): `unload` stops a running module first (aborting on stop
    failure), invokes destroy when initialized, and closes the handle; the
    record is dropped exactly when the whole operation succeeds, and on any
    failure — including a failing `dlclose` — the record (if any) is
    retained. -/
theorem claim_C8_unload_record_dropped_iff_success (env : LoaderEnv)
    (s : LoaderState) (n : String) (hw : LoaderKeysOk s) :
    ((ModuleLoader.unload_module env s n).1 = true →
      ModuleLoader.lkup (ModuleLoader.unload_module env s n).2 n = none) ∧
    ((ModuleLoader.unload_module env s n).1 = false →
      (ModuleLoader.lkup (ModuleLoader.unload_module env s n).2 n).isSome
        = (ModuleLoader.lkup s n).isSome) := by
  unfold ModuleLoader.unload_module
  cases hl : ModuleLoader.lkup s n with
  | none =>
    refine ⟨fun h => absurd h Bool.false_ne_true, fun _ => ?_⟩
    show (ModuleLoader.lkup s n).isSome = (none : Option LoaderRec).isSome
    rw [hl]
  | some r =>
    dsimp only
    by_cases hr : r.running
    · rw [if_pos hr]
      rcases stop_module_cases env s n r hl hr with ⟨hz, heq⟩ | ⟨hz, heq⟩
      · rw [heq]
        refine ⟨fun h => absurd h Bool.false_ne_true, fun _ => ?_⟩
        show (ModuleLoader.lkup s n).isSome = (some r).isSome
        rw [hl]
      · rw [heq]
        dsimp only
        by_cases hc : env.dlcloseOk n
        · rw [if_pos hc]
          refine ⟨fun _ => ?_, fun h => absurd h.symm Bool.false_ne_true⟩
          exact lkup_eraseP_self _ _ (keysOk_setRec _ _ _ hw)
        · rw [if_neg hc]
          refine ⟨fun h => absurd h Bool.false_ne_true, fun _ => ?_⟩
          show (ModuleLoader.lkup
            (ModuleLoader.setRec s n ⟨r.initialized, false⟩) n).isSome
            = (some r).isSome
          rw [lkup_setRec_self, hl]
          rfl
    · rw [if_neg hr]
      dsimp only
      by_cases hc : env.dlcloseOk n
      · rw [if_pos hc]
        exact ⟨fun _ => lkup_eraseP_self _ _ hw,
          fun h => absurd h.symm Bool.false_ne_true⟩
      · rw [if_neg hc]
        refine ⟨fun h => absurd h Bool.false_ne_true, fun _ => ?_⟩
        show (ModuleLoader.lkup s n).isSome = (some r).isSome
        rw [hl]

theorem claim_C8_unload_record_dropped_iff_success_witness :
    (ModuleLoader.lkup
      (ModuleLoader.unload_module envCloseFail [("m", ⟨true, false⟩)] "m").2
      "m").isSome
      = (ModuleLoader.lkup ([("m", ⟨true, false⟩)] : LoaderState) "m").isSome :=
  (claim_C8_unload_record_dropped_iff_success envCloseFail
    [("m", ⟨true, false⟩)] "m" (by unfold LoaderKeysOk; decide)).2 (by decide)

/-! ## Supervisor (src/daemon/daemon.cpp, include/helix/daemon.h)

`DaemonState` holds the fields of `HelixDaemon` that the modelled operations
read or write: `initialized_`, `module_registry_` (name → {manifest, state,
error_message}; the `name`/`version`/`install_path` fields of
`DaemonModuleInfo` are the key resp. derived from the manifest and a host
path), the loader state, the resolver's manifest map, and `last_error_`.
The host version constants live in `include/helix/version.h`, which is not
part of the sources; per spec §6 they are host-provided values, supplied here
through the environment.  Filesystem outcomes are oracles. -/

inductive ModuleState where
  | UNKNOWN
  | INSTALLED
  | LOADED
  | INITIALIZED
  | RUNNING
  | STOPPED
  | ERROR
deriving DecidableEq

structure RegEntry where
  manifest : ModuleManifest
  state : ModuleState
  error_message : String
deriving DecidableEq

abbrev RegistryState := List (String × RegEntry)

structure DaemonState where
  initialized : Bool
  registry : RegistryState
  loader : LoaderState
  resolver : Resolver
  last_error : String

structure DaemonEnv where
  loaderEnv : LoaderEnv
  coreVersion : String
  apiVersion : String
  removeFilesOk : String → Bool

/-- What `install_module` learns about a `.helx` package: extension check,
    extraction outcome, the parsed manifest, and whether `extract_package`
    managed to promote the staging directory. -/
structure Package where
  isHelx : Bool
  extractOk : Bool
  parsed : Option ModuleManifest
  promoteOk : Bool

namespace HelixDaemon

/-- `module_registry_.find(n)`. -/
def lkupReg (reg : RegistryState) (n : String) : Option RegEntry :=
  (reg.find? (fun p => p.1 == n)).map Prod.snd

/-- `module_registry_[n] = info` (replace or append). -/
def setReg (reg : RegistryState) (n : String) (e : RegEntry) : RegistryState :=
  if (lkupReg reg n).isSome then
    reg.map (fun p => if p.1 = n then (n, e) else p)
  else reg ++ [(n, e)]

/-- `HelixDaemon::set_last_error` (daemon.h line 155). -/
def set_last_error (s : DaemonState) (e : String) : DaemonState :=
  ⟨s.initialized, s.registry, s.loader, s.resolver, e⟩

/-- Replace only the loader component. -/
def withLoader (s : DaemonState) (l : LoaderState) : DaemonState :=
  ⟨s.initialized, s.registry, l, s.resolver, s.last_error⟩

/-- `HelixDaemon::update_module_state` (daemon.cpp lines 596-603): when the
    module is registered, overwrite its state and error message. -/
def update_module_state (s : DaemonState) (n : String) (st : ModuleState)
    (msg : String) : DaemonState :=
  ⟨s.initialized,
   s.registry.map (fun p => if p.1 = n then (n, ⟨p.2.manifest, st, msg⟩) else p),
   s.loader, s.resolver, s.last_error⟩

/-- Registry state of a module (`UNKNOWN` for absent records). -/
def stateOf (s : DaemonState) (n : String) : ModuleState :=
  match lkupReg s.registry n with
  | none => ModuleState.UNKNOWN
  | some e => e.state

/-- `HelixDaemon::start_module` (daemon.cpp lines 383-413). -/
def start_module (env : DaemonEnv) (s : DaemonState) (n : String) :
    Bool × DaemonState :=
  if !s.initialized then (false, s)
  else
    match lkupReg s.registry n with
    | none => (false, set_last_error s ("Not installed: " ++ n))
    | some e =>
      if e.state ≠ ModuleState.INITIALIZED ∧ e.state ≠ ModuleState.STOPPED then
        (false, set_last_error s "Not enabled")
      else
        let r := ModuleLoader.start_module env.loaderEnv s.loader n
        if !r.1 then
          (false, set_last_error
            (update_module_state (withLoader s r.2) n ModuleState.INITIALIZED
              "Failed to start module") "Start failed")
        else (true, update_module_state (withLoader s r.2) n ModuleState.RUNNING "")

/-- `HelixDaemon::stop_module` (daemon.cpp lines 415-444). -/
def stop_module (env : DaemonEnv) (s : DaemonState) (n : String) :
    Bool × DaemonState :=
  if !s.initialized then (false, s)
  else
    match lkupReg s.registry n with
    | none => (false, set_last_error s ("Not installed: " ++ n))
    | some e =>
      if e.state ≠ ModuleState.RUNNING then
        (false, set_last_error s "Not running")
      else
        let r := ModuleLoader.stop_module env.loaderEnv s.loader n
        if !r.1 then
          (false, set_last_error
            (update_module_state (withLoader s r.2) n ModuleState.ERROR
              "Failed to stop module") "Stop failed")
        else (true, update_module_state (withLoader s r.2) n ModuleState.STOPPED "")

/-- `HelixDaemon::disable_module` (daemon.cpp lines 343-381).  Note that the
    already-disabled rejection (line 357-360) prints to stderr but does not
    touch `last_error_`. -/
def disable_module (env : DaemonEnv) (s : DaemonState) (n : String) :
    Bool × DaemonState :=
  if !s.initialized then (false, s)
  else
    match lkupReg s.registry n with
    | none => (false, set_last_error s ("Not installed: " ++ n))
    | some e =>
      if e.state = ModuleState.INSTALLED then (false, s)
      else
        let step1 : Bool × DaemonState :=
          if e.state = ModuleState.RUNNING then stop_module env s n else (true, s)
        if !step1.1 then (false, step1.2)
        else
          let s1 := step1.2
          let st1 := stateOf s1 n
          let step2 : Bool × DaemonState :=
            if st1 = ModuleState.LOADED ∨ st1 = ModuleState.INITIALIZED ∨
                st1 = ModuleState.RUNNING ∨ st1 = ModuleState.STOPPED then
              let r := ModuleLoader.unload_module env.loaderEnv s1.loader n
              if !r.1 then
                (false, set_last_error
                  (update_module_state (withLoader s1 r.2) n ModuleState.ERROR
                    "Failed to unload module") "Unload failed")
              else (true, withLoader s1 r.2)
            else (true, s1)
          if !step2.1 then (false, step2.2)
          else (true, update_module_state step2.2 n ModuleState.INSTALLED "")

/-- Comma-separated join used by the resolver-failure diagnostic. -/
def joinComma : List String → String
  | [] => ""
  | [x] => x
  | x :: xs => x ++ ", " ++ joinComma xs

/-- The diagnostic built by `resolve_and_load_dependencies` on resolution
    failure (daemon.cpp lines 610-639). -/
def resolveFailMsg (s : DaemonState) (n : String) (result : ResolutionResult) :
    String :=
  "Dependency resolution failed for '" ++ n ++ "'" ++
  (match lkupReg s.registry n with
   | some e =>
     if e.manifest.dependencies.isEmpty then ""
     else "; required: " ++ joinComma (e.manifest.dependencies.map Dependency.name)
   | none => "") ++
  (if result.missing_deps.isEmpty then ""
   else "; missing: " ++ joinComma result.missing_deps) ++
  (if result.circular_deps.isEmpty then ""
   else "; circular: " ++ joinComma result.circular_deps)

/-- The three mutually recursive pieces of `enable_module`: the operation
    itself, `resolve_and_load_dependencies` (daemon.cpp lines 605-670), and
    the `for (dep_name : load_order)` loop inside the latter.  Encoded as one
    fuel-structural function so the kernel can evaluate it. -/
inductive EnCall where
  | en (n : String)
  | rld (n : String)
  | loop (order : List String) (n : String)

/-- Dispatch for `EnCall` (bodies follow daemon.cpp lines 290-341 for
    `enable_module` and 605-670 for `resolve_and_load_dependencies`).  Fuel
    exhaustion reports failure with the state unchanged; the C++ recursion
    depth is bounded by the registry size because a dependency is enabled
    only while still `Installed`. -/
def enableGo (env : DaemonEnv) : Nat → EnCall → DaemonState → Bool × DaemonState
  | 0, _, s => (false, s)
  | fuel + 1, .en n, s =>
    if !s.initialized then (false, s)
    else
      match lkupReg s.registry n with
      | none => (false, set_last_error s ("Not installed: " ++ n))
      | some e =>
        if e.state ≠ ModuleState.INSTALLED then
          (false, set_last_error s "Already enabled")
        else
          let rd := enableGo env fuel (.rld n) s
          if !rd.1 then
            (false, if rd.2.last_error = ""
              then set_last_error rd.2 "Dependency resolution failed"
              else rd.2)
          else
            let s1 := rd.2
            let lr := ModuleLoader.load_module env.loaderEnv s1.loader n
            if !lr.1 then
              (false, set_last_error
                (update_module_state (withLoader s1 lr.2) n ModuleState.INSTALLED
                  "Failed to load module binary") ("Load failed: " ++ n))
            else
              let s2 := update_module_state (withLoader s1 lr.2) n
                ModuleState.LOADED ""
              let ir := ModuleLoader.initialize_module env.loaderEnv s2.loader n
              if !ir.1 then
                let s3 := withLoader s2
                  (ModuleLoader.unload_module env.loaderEnv ir.2 n).2
                (false, set_last_error
                  (update_module_state s3 n ModuleState.INSTALLED
                    "Failed to initialize module") "Initialize failed")
              else
                (true, update_module_state (withLoader s2 ir.2) n
                  ModuleState.INITIALIZED "")
  | fuel + 1, .rld n, s =>
    let result := resolve_dependencies s.resolver [n]
    if !result.success then
      (false, set_last_error s (resolveFailMsg s n result))
    else enableGo env fuel (.loop result.load_order n) s
  | _ + 1, .loop [] _, s => (true, s)
  | fuel + 1, .loop (dep :: rest) n, s =>
    if dep = n then enableGo env fuel (.loop rest n) s
    else
      let st1 : Bool × DaemonState :=
        match lkupReg s.registry dep with
        | some e =>
          if e.state = ModuleState.INSTALLED then enableGo env fuel (.en dep) s
          else (true, s)
        | none => (true, s)
      if !st1.1 then
        (false, set_last_error st1.2
          ("Failed to enable dependency '" ++ dep ++ "': " ++ st1.2.last_error))
      else
        let s1 := st1.2
        match lkupReg s1.registry dep with
        | none => enableGo env fuel (.loop rest n) s1
        | some e2 =>
          if e2.state ≠ ModuleState.RUNNING ∧
              (e2.state = ModuleState.INITIALIZED ∨
               e2.state = ModuleState.STOPPED) then
            let st2 := start_module env s1 dep
            if !st2.1 then
              (false, set_last_error st2.2
                ("Failed to start dependency '" ++ dep ++ "': " ++
                  st2.2.last_error))
            else enableGo env fuel (.loop rest n) st2.2
          else enableGo env fuel (.loop rest n) s1

/-- `HelixDaemon::enable_module` (daemon.cpp lines 290-341). -/
def enable_module (env : DaemonEnv) (fuel : Nat) (s : DaemonState)
    (n : String) : Bool × DaemonState :=
  enableGo env fuel (.en n) s

/-- `HelixDaemon::install_module` (daemon.cpp lines 133-238), with the
    filesystem and extraction steps as package oracles.  The version gates
    reuse the real `version_satisfies`.  On success the registry entry for
    the manifest's name is overwritten at `Installed` and the manifest is
    offered to the resolver (whose duplicate rejection is silently
    ignored, exactly as the C++ ignores `add_module`'s result). -/
def install_module (env : DaemonEnv) (s : DaemonState) (pkg : Package) :
    Bool × DaemonState :=
  if !s.initialized then (false, set_last_error s "Daemon not initialized")
  else if !pkg.isHelx then
    (false, set_last_error s "Unsupported package type (expected .helx)")
  else if !pkg.extractOk then
    (false, set_last_error s "Extract failed: tar exit code nonzero")
  else
    match pkg.parsed with
    | none => (false, set_last_error s "Manifest parse failed")
    | some mfst =>
      if mfst.minimum_core_version ≠ "" ∧
          version_satisfies env.coreVersion
            (">=" ++ mfst.minimum_core_version) = false then
        (false, set_last_error s ("Core version " ++ env.coreVersion ++
          " does not satisfy >=" ++ mfst.minimum_core_version))
      else if mfst.minimum_api_version ≠ "" ∧
          version_satisfies env.apiVersion
            (">=" ++ mfst.minimum_api_version) = false then
        (false, set_last_error s ("API version " ++ env.apiVersion ++
          " does not satisfy >=" ++ mfst.minimum_api_version))
      else if !pkg.promoteOk then
        (false, set_last_error s "Install to modules dir failed")
      else
        (true, ⟨s.initialized,
          setReg s.registry mfst.name ⟨mfst, ModuleState.INSTALLED, ""⟩,
          s.loader, (add_module s.resolver mfst).2, s.last_error⟩)

/-- `HelixDaemon::uninstall_module` (daemon.cpp lines 240-288).  The
    not-initialized rejection (lines 241-244) does not touch `last_error_`. -/
def uninstall_module (env : DaemonEnv) (s : DaemonState) (n : String) :
    Bool × DaemonState :=
  if !s.initialized then (false, s)
  else
    match lkupReg s.registry n with
    | none => (false, set_last_error s ("Not installed: " ++ n))
    | some e =>
      if ¬ (dependentsOf s.resolver n).isEmpty then
        (false, set_last_error s "Dependents present")
      else
        let step1 : Bool × DaemonState :=
          if e.state ≠ ModuleState.INSTALLED then
            let d := disable_module env s n
            if !d.1 then
              (false, set_last_error d.2 "Disable before uninstall failed")
            else (true, d.2)
          else (true, s)
        if !step1.1 then (false, step1.2)
        else
          let s1 := step1.2
          if !env.removeFilesOk n then
            (false, set_last_error s1 "Filesystem remove failed")
          else
            (true, ⟨s1.initialized, s1.registry.eraseP (fun p => p.1 == n),
              s1.loader, remove_module s1.resolver n, s1.last_error⟩)

/-! ### Concrete supervisor scenarios -/

/-- All hooks succeed except the start hook, which returns 1. -/
def envStartFail : DaemonEnv :=
  ⟨⟨fun _ => true, fun _ => true, fun _ => true, fun _ => 0, fun _ => 1,
    fun _ => 0⟩, "1.0.0", "1.0.0", fun _ => true⟩

/-- Every oracle succeeds. -/
def envAllOk : DaemonEnv :=
  ⟨⟨fun _ => true, fun _ => true, fun _ => true, fun _ => 0, fun _ => 0,
    fun _ => 0⟩, "1.0.0", "1.0.0", fun _ => true⟩

/-- An initialized daemon holding the single module `m` at the given state,
    with the loader record `⟨initialized, running⟩` supplied. -/
def oneModState (st : ModuleState) (lr : LoaderRec) : DaemonState :=
  ⟨true, [("m", ⟨mf "m" "1.0.0" [], st, ""⟩)], [("m", lr)],
   [mf "m" "1.0.0" []], ""⟩

/-! ### Reachability over the dependency graph -/

/-- Forward edge of `dependency_graph_`. -/
def edgeOf (mods : Resolver) (u v : String) : Prop := v ∈ depsOf mods u

instance (mods : Resolver) (u v : String) : Decidable (edgeOf mods u v) :=
  inferInstanceAs (Decidable (v ∈ depsOf mods u))

/-- Reflexive-transitive closure of the forward edges. -/
inductive ReachStar (mods : Resolver) : String → String → Prop where
  | refl (u : String) : ReachStar mods u u
  | tail {u v w : String} : ReachStar mods u v → edgeOf mods v w →
      ReachStar mods u w

/-- At-least-one-edge reachability. -/
def ReachPlus (mods : Resolver) (u v : String) : Prop :=
  ∃ w, edgeOf mods u w ∧ ReachStar mods w v

/-- The dependency graph has no cycle. -/
def Acyclic (mods : Resolver) : Prop := ∀ u, ¬ ReachPlus mods u u

theorem ReachStar.trans_star {mods : Resolver} {u v w : String}
    (h1 : ReachStar mods u v) (h2 : ReachStar mods v w) :
    ReachStar mods u w := by
  induction h2 with
  | refl => exact h1
  | tail _ he ih => exact ReachStar.tail ih he

theorem ReachStar.head {mods : Resolver} {u v w : String}
    (he : edgeOf mods u v) (h : ReachStar mods v w) : ReachStar mods u w :=
  ReachStar.trans_star (ReachStar.tail (ReachStar.refl u) he) h

/-! ### insertName / depsOf basic lemmas -/

theorem insertName_mem (l : List String) (n x : String) :
    x ∈ insertName l n ↔ x ∈ l ∨ x = n := by
  unfold insertName
  by_cases h : n ∈ l
  · simp only [if_pos h]
    constructor
    · exact Or.inl
    · rintro (hx | rfl)
      · exact hx
      · exact h
  · simp [if_neg h]

theorem insertName_nodup (l : List String) (n : String) (h : l.Nodup) :
    (insertName l n).Nodup := by
  unfold insertName
  by_cases hn : n ∈ l
  · simpa [hn]
  · simpa [hn, List.nodup_append] using h

theorem foldl_insertName_mem (l : List String) (acc : List String) (x : String) :
    x ∈ l.foldl insertName acc ↔ x ∈ acc ∨ x ∈ l := by
  induction l generalizing acc with
  | nil => simp
  | cons a t ih =>
    rw [List.foldl_cons, ih, insertName_mem]
    simp only [List.mem_cons]
    tauto

theorem foldl_insertName_nodup (l : List String) (acc : List String)
    (h : acc.Nodup) : (l.foldl insertName acc).Nodup := by
  induction l generalizing acc with
  | nil => exact h
  | cons a t ih => exact ih _ (insertName_nodup _ _ h)

theorem depsOf_nodup (mods : Resolver) (n : String) : (depsOf mods n).Nodup := by
  unfold depsOf
  cases findModule mods n with
  | none => exact List.nodup_nil
  | some m => exact foldl_insertName_nodup _ _ List.nodup_nil

theorem depsOf_subset_decls (mods : Resolver) (n : String) (d : String)
    (hd : d ∈ depsOf mods n) :
    ∃ m, findModule mods n = some m ∧ ∃ dep ∈ m.dependencies, dep.name = d := by
  unfold depsOf at hd
  cases hf : findModule mods n with
  | none => rw [hf] at hd; cases hd
  | some m =>
    rw [hf] at hd
    rw [foldl_insertName_mem] at hd
    rcases hd with hd | hd
    · cases hd
    · rw [List.mem_map] at hd
      obtain ⟨dep, hdep, rfl⟩ := hd
      exact ⟨m, rfl, dep, (List.mem_filter.mp hdep).1, rfl⟩

theorem findModule_mem (mods : Resolver) (n : String) (m : ModuleManifest)
    (h : findModule mods n = some m) : m ∈ mods ∧ m.name = n := by
  unfold findModule at h
  refine ⟨List.mem_of_find?_eq_some h, ?_⟩
  have := List.find?_some h
  simpa using this

theorem deps_mem_uniNames (mods : Resolver) (n d : String)
    (hd : d ∈ depsOf mods n) : d ∈ uniNames mods := by
  obtain ⟨m, hf, dep, hdep, rfl⟩ := depsOf_subset_decls mods n d hd
  unfold uniNames
  rw [List.mem_flatMap]
  exact ⟨m, (findModule_mem mods n m hf).1,
    List.mem_cons_of_mem _ (List.mem_map_of_mem _ hdep)⟩

theorem registered_mem_uniNames (mods : Resolver) (n : String)
    (h : has_module mods n = true) : n ∈ uniNames mods := by
  unfold has_module at h
  rw [Option.isSome_iff_exists] at h
  obtain ⟨m, hm⟩ := h
  obtain ⟨hmem, hname⟩ := findModule_mem mods n m hm
  unfold uniNames
  rw [List.mem_flatMap]
  exact ⟨m, hmem, by rw [hname]; exact List.mem_cons_self _ _⟩

theorem nodup_subset_card_le (l : List String) (u : List String)
    (hn : l.Nodup) (hsub : ∀ x ∈ l, x ∈ u) :
    l.length ≤ u.toFinset.card := by
  calc l.length = l.toFinset.card := (List.toFinset_card_of_nodup hn).symm
  _ ≤ u.toFinset.card := by
      apply Finset.card_le_card
      intro x hx
      rw [List.mem_toFinset] at hx
      rw [List.mem_toFinset]
      exact hsub x hx

/-! ### Closure worklist correctness -/

theorem closureLoop_spec (mods : Resolver) (P : String → Prop)
    (hPstep : ∀ u v, P u → edgeOf mods u v → P v) :
    ∀ (fuel : Nat) (q acc : List String),
    (∀ x ∈ q, x ∈ acc) →
    acc.Nodup →
    (∀ x ∈ acc, x ∈ uniNames mods) →
    (∀ v ∈ acc, v ∉ q → ∀ d ∈ depsOf mods v, d ∈ acc) →
    (∀ v ∈ acc, P v) →
    q.length + ((uniNames mods).toFinset.card - acc.length) ≤ fuel →
    (∀ x ∈ acc, x ∈ closureLoop mods fuel q acc) ∧
    (closureLoop mods fuel q acc).Nodup ∧
    (∀ v ∈ closureLoop mods fuel q acc, ∀ d ∈ depsOf mods v,
      d ∈ closureLoop mods fuel q acc) ∧
    (∀ v ∈ closureLoop mods fuel q acc, P v) ∧
    (∀ v ∈ closureLoop mods fuel q acc, v ∈ uniNames mods) := by
  intro fuel
  induction fuel with
  | zero =>
    intro q acc hqa hnd huni hclosed hP hfuel
    have hq : q = [] := by
      cases q with
      | nil => rfl
      | cons a t => simp at hfuel
    subst hq
    unfold closureLoop
    exact ⟨fun x hx => hx, hnd, fun v hv => hclosed v hv (by simp), hP, huni⟩
  | succ fuel ih =>
    intro q acc hqa hnd huni hclosed hP hfuel
    cases q with
    | nil =>
      unfold closureLoop
      exact ⟨fun x hx => hx, hnd, fun v hv => hclosed v hv (by simp), hP, huni⟩
    | cons cur rest =>
      show (∀ x ∈ acc, x ∈ closureLoop mods (fuel + 1) (cur :: rest) acc) ∧ _
      have hstep : closureLoop mods (fuel + 1) (cur :: rest) acc
          = closureLoop mods fuel
              (rest ++ (depsOf mods cur).filter (fun d => decide (d ∉ acc)))
              (acc ++ (depsOf mods cur).filter (fun d => decide (d ∉ acc))) := rfl
      set newOnes := (depsOf mods cur).filter (fun d => decide (d ∉ acc)) with hnew
      have hnew_mem : ∀ x, x ∈ newOnes ↔ x ∈ depsOf mods cur ∧ x ∉ acc := by
        intro x
        rw [hnew, List.mem_filter]
        simp
      have hcur_acc : cur ∈ acc := hqa cur (by simp)
      have hqa' : ∀ x ∈ rest ++ newOnes, x ∈ acc ++ newOnes := by
        intro x hx
        rw [List.mem_append] at *
        rcases hx with hx | hx
        · exact Or.inl (hqa x (List.mem_cons_of_mem _ hx))
        · exact Or.inr hx
      have hnd' : (acc ++ newOnes).Nodup := by
        rw [List.nodup_append]
        refine ⟨hnd, ?_, ?_⟩
        · rw [hnew]
          exact (depsOf_nodup mods cur).filter _
        · intro x hx hx'
          exact ((hnew_mem x).mp hx').2 hx
      have huni' : ∀ x ∈ acc ++ newOnes, x ∈ uniNames mods := by
        intro x hx
        rw [List.mem_append] at hx
        rcases hx with hx | hx
        · exact huni x hx
        · exact deps_mem_uniNames mods cur x ((hnew_mem x).mp hx).1
      have hclosed' : ∀ v ∈ acc ++ newOnes, v ∉ rest ++ newOnes →
          ∀ d ∈ depsOf mods v, d ∈ acc ++ newOnes := by
        intro v hv hvq d hd
        rw [List.mem_append] at hv
        rcases hv with hv | hv
        · by_cases hvc : v = cur
          · subst hvc
            rw [List.mem_append]
            by_cases hda : d ∈ acc
            · exact Or.inl hda
            · exact Or.inr ((hnew_mem d).mpr ⟨hd, hda⟩)
          · have hvrest : v ∉ rest := fun hr => hvq (List.mem_append_left _ hr)
            have : v ∉ cur :: rest := by
              intro hc
              rcases List.mem_cons.mp hc with hc | hc
              · exact hvc hc
              · exact hvrest hc
            exact List.mem_append_left _ (hclosed v hv this d hd)
        · exact absurd (List.mem_append_right _ hv) hvq
      have hP' : ∀ v ∈ acc ++ newOnes, P v := by
        intro v hv
        rw [List.mem_append] at hv
        rcases hv with hv | hv
        · exact hP v hv
        · exact hPstep cur v (hP cur hcur_acc) ((hnew_mem v).mp hv).1
      have hfuel' : (rest ++ newOnes).length +
          ((uniNames mods).toFinset.card - (acc ++ newOnes).length) ≤ fuel := by
        have hlen : (acc ++ newOnes).length ≤ (uniNames mods).toFinset.card :=
          nodup_subset_card_le _ _ hnd' huni'
        have h1 : (rest ++ newOnes).length = rest.length + newOnes.length :=
          List.length_append _ _
        have h2 : (acc ++ newOnes).length = acc.length + newOnes.length :=
          List.length_append _ _
        rw [h1, h2]
        rw [h2] at hlen
        simp only [List.length_cons] at hfuel
        omega
      rw [hstep]
      obtain ⟨c1, c2, c3, c4, c5⟩ :=
        ih (rest ++ newOnes) (acc ++ newOnes) hqa' hnd' huni' hclosed' hP' hfuel'
      exact ⟨fun x hx => c1 x (List.mem_append_left _ hx), c2, c3, c4, c5⟩

/-- `all_needed` is exactly the set of nodes reachable from a registered
    target; it is duplicate-free and closed under forward edges. -/
theorem allNeeded_props (mods : Resolver) (targets : List String) :
    (∀ v ∈ allNeededOf mods targets,
      ∃ t ∈ targets, has_module mods t = true ∧ ReachStar mods t v) ∧
    (allNeededOf mods targets).Nodup ∧
    (∀ v ∈ allNeededOf mods targets, ∀ d ∈ depsOf mods v,
      d ∈ allNeededOf mods targets) ∧
    (∀ t ∈ targets, has_module mods t = true →
      ∀ x, ReachStar mods t x → x ∈ allNeededOf mods targets) := by
  have hseed_mem : ∀ x, x ∈ closureSeeds mods targets ↔
      x ∈ targets ∧ has_module mods x = true := by
    intro x
    unfold closureSeeds
    rw [List.mem_filter]
  have hacc_mem : ∀ x, x ∈ (closureSeeds mods targets).foldl insertName [] ↔
      x ∈ closureSeeds mods targets := by
    intro x
    rw [foldl_insertName_mem]
    simp
  have hspec := closureLoop_spec mods
    (fun v => ∃ t ∈ targets, has_module mods t = true ∧ ReachStar mods t v)
    (fun u v hu he => by
      obtain ⟨t, ht, hreg, hr⟩ := hu
      exact ⟨t, ht, hreg, ReachStar.tail hr he⟩)
    ((closureSeeds mods targets).length + (uniNames mods).length + 1)
    (closureSeeds mods targets)
    ((closureSeeds mods targets).foldl insertName [])
    (fun x hx => (hacc_mem x).mpr hx)
    (foldl_insertName_nodup _ _ List.nodup_nil)
    (fun x hx => registered_mem_uniNames mods x
      ((hseed_mem x).mp ((hacc_mem x).mp hx)).2)
    (fun v hv hvq => absurd ((hacc_mem v).mp hv) hvq)
    (fun v hv => by
      obtain ⟨hvt, hreg⟩ := (hseed_mem v).mp ((hacc_mem v).mp hv)
      exact ⟨v, hvt, hreg, ReachStar.refl v⟩)
    (by
      have h1 : (uniNames mods).toFinset.card ≤ (uniNames mods).length :=
        (uniNames mods).toFinset_card_le
      omega)
  have hall : allNeededOf mods targets
      = closureLoop mods
          ((closureSeeds mods targets).length + (uniNames mods).length + 1)
          (closureSeeds mods targets)
          ((closureSeeds mods targets).foldl insertName []) := rfl
  obtain ⟨c1, c2, c3, c4, c5⟩ := hspec
  rw [hall]
  refine ⟨c4, c2, c3, ?_⟩
  intro t ht hreg x hx
  induction hx with
  | refl =>
    exact c1 t ((hacc_mem t).mpr ((hseed_mem t).mpr ⟨ht, hreg⟩))
  | tail hr he ih => exact c3 _ ih _ he

/-! ### Kahn loop: the per-pop fold over reverse edges -/

theorem dependentsOf_iff (mods : Resolver) (cur v : String) :
    v ∈ dependentsOf mods cur ↔ cur ∈ depsOf mods v := by
  unfold dependentsOf
  rw [List.mem_map]
  constructor
  · rintro ⟨m, hm, rfl⟩
    rw [List.mem_filter] at hm
    simpa using hm.2
  · intro hcur
    have hne : depsOf mods v ≠ [] := by
      intro h0
      rw [h0] at hcur
      cases hcur
    have hfind : ∃ m, findModule mods v = some m := by
      unfold depsOf at hne
      cases hf : findModule mods v with
      | none => rw [hf] at hne; exact absurd rfl hne
      | some m => exact ⟨m, rfl⟩
    obtain ⟨m, hm⟩ := hfind
    obtain ⟨hmem, hname⟩ := findModule_mem mods v m hm
    refine ⟨m, ?_, hname⟩
    rw [List.mem_filter]
    exact ⟨hmem, by rw [hname]; simpa using hcur⟩

theorem dependentsOf_nodup (mods : Resolver) (cur : String)
    (hU : (mods.map ModuleManifest.name).Nodup) :
    (dependentsOf mods cur).Nodup := by
  unfold dependentsOf
  have hsub : (mods.filter
        (fun m => decide (cur ∈ depsOf mods m.name))).map ModuleManifest.name
      |>.Sublist (mods.map ModuleManifest.name) :=
    (List.filter_sublist mods).map ModuleManifest.name
  exact hU.sublist hsub

theorem kahnStep_pos (needed : List String) (f : String → Int)
    (acc : List String) (dep : String) (hd : dep ∈ needed) :
    kahnStep needed (f, acc) dep
      = (updFn f dep (f dep - 1),
         if f dep - 1 = 0 then acc ++ [dep] else acc) := by
  unfold kahnStep
  rw [if_pos (by simpa using hd)]

theorem kahnStep_neg (needed : List String) (p : (String → Int) × List String)
    (dep : String) (hd : dep ∉ needed) : kahnStep needed p dep = p := by
  unfold kahnStep
  rw [if_neg (by simpa using hd)]

theorem kahnFold_fst (needed : List String) :
    ∀ (l : List String), l.Nodup → ∀ (f : String → Int) (acc : List String)
    (v : String),
    (l.foldl (kahnStep needed) (f, acc)).1 v
      = if v ∈ l ∧ v ∈ needed then f v - 1 else f v := by
  intro l
  induction l with
  | nil =>
    intro _ f acc v
    simp
  | cons d t ih =>
    intro hnd f acc v
    have hdt : d ∉ t := (List.nodup_cons.mp hnd).1
    have hndt : t.Nodup := (List.nodup_cons.mp hnd).2
    rw [List.foldl_cons]
    by_cases hdneed : d ∈ needed
    · rw [kahnStep_pos needed f acc d hdneed]
      rw [ih hndt (updFn f d (f d - 1)) _ v]
      by_cases hvt : v ∈ t
      · have hvd : v ≠ d := fun h => hdt (h ▸ hvt)
        by_cases hvn : v ∈ needed
        · rw [if_pos ⟨hvt, hvn⟩, if_pos ⟨List.mem_cons_of_mem _ hvt, hvn⟩]
          unfold updFn
          rw [if_neg hvd]
        · rw [if_neg (fun h => hvn h.2), if_neg (fun h => hvn h.2)]
          unfold updFn
          rw [if_neg hvd]
      · by_cases hvd : v = d
        · subst hvd
          rw [if_neg (fun h => hvt h.1),
            if_pos ⟨List.mem_cons_self _ _, hdneed⟩]
          unfold updFn
          rw [if_pos rfl]
        · rw [if_neg (fun h => hvt h.1),
            if_neg (fun h => (List.mem_cons.mp h.1).elim hvd hvt)]
          unfold updFn
          rw [if_neg hvd]
    · rw [kahnStep_neg needed (f, acc) d hdneed]
      rw [ih hndt f acc v]
      by_cases hvt : v ∈ t
      · by_cases hvn : v ∈ needed
        · rw [if_pos ⟨hvt, hvn⟩, if_pos ⟨List.mem_cons_of_mem _ hvt, hvn⟩]
        · rw [if_neg (fun h => hvn h.2), if_neg (fun h => hvn h.2)]
      · by_cases hvd : v = d
        · subst hvd
          rw [if_neg (fun h => hvt h.1), if_neg (fun h => hdneed h.2)]
        · rw [if_neg (fun h => hvt h.1),
            if_neg (fun h => (List.mem_cons.mp h.1).elim hvd hvt)]

theorem kahnFold_snd (needed : List String) :
    ∀ (l : List String), l.Nodup → ∀ (f : String → Int) (acc : List String),
    (l.foldl (kahnStep needed) (f, acc)).2
      = acc ++ l.filter (fun d => decide (d ∈ needed) && decide (f d = 1)) := by
  intro l
  induction l with
  | nil =>
    intro _ f acc
    simp
  | cons d t ih =>
    intro hnd f acc
    have hdt : d ∉ t := (List.nodup_cons.mp hnd).1
    have hndt : t.Nodup := (List.nodup_cons.mp hnd).2
    rw [List.foldl_cons]
    by_cases hdneed : d ∈ needed
    · rw [kahnStep_pos needed f acc d hdneed]
      rw [ih hndt (updFn f d (f d - 1)) _]
      have hfilter : t.filter (fun x => decide (x ∈ needed) &&
          decide (updFn f d (f d - 1) x = 1))
          = t.filter (fun x => decide (x ∈ needed) && decide (f x = 1)) := by
        apply List.filter_congr
        intro x hx
        have hxd : x ≠ d := fun h => hdt (h ▸ hx)
        unfold updFn
        rw [if_neg hxd]
      rw [hfilter, List.filter_cons]
      by_cases hfd : f d = 1
      · have hz : f d - 1 = 0 := by omega
        rw [if_pos hz]
        have hcond : (decide (d ∈ needed) && decide (f d = 1)) = true := by
          simp [hdneed, hfd]
        rw [hcond]
        simp
      · have hz : ¬ (f d - 1 = 0) := by omega
        rw [if_neg hz]
        have hcond : (decide (d ∈ needed) && decide (f d = 1)) = false := by
          simp [hfd]
        rw [hcond]
        simp
    · rw [kahnStep_neg needed (f, acc) d hdneed]
      rw [ih hndt f acc, List.filter_cons]
      have hcond : (decide (d ∈ needed) && decide (f d = 1)) = false := by
        simp [hdneed]
      rw [hcond]
      simp

/-! ### Kahn loop invariants -/

/-- The in-subset forward neighbours of `v` not yet popped. -/
def remainingDeps (mods : Resolver) (needed order : List String) (v : String) :
    List String :=
  (depsOf mods v).filter (fun d => decide (d ∈ needed) && decide (d ∉ order))

theorem mem_remainingDeps (mods : Resolver) (needed order : List String)
    (v d : String) :
    d ∈ remainingDeps mods needed order v ↔
      d ∈ depsOf mods v ∧ d ∈ needed ∧ d ∉ order := by
  unfold remainingDeps
  rw [List.mem_filter]
  simp

theorem remainingDeps_nodup (mods : Resolver) (needed order : List String)
    (v : String) : (remainingDeps mods needed order v).Nodup :=
  (depsOf_nodup mods v).filter _

theorem remainingDeps_snoc (mods : Resolver) (needed order : List String)
    (v cur : String) :
    remainingDeps mods needed (order ++ [cur]) v
      = (remainingDeps mods needed order v).filter (fun d => decide (d ≠ cur)) := by
  unfold remainingDeps
  rw [List.filter_filter]
  apply List.filter_congr
  intro d _
  by_cases h1 : d ∈ needed <;> by_cases h2 : d ∈ order <;>
    by_cases h3 : d = cur <;> simp [h1, h2, h3]

theorem length_filter_ne (l : List String) (a : String) (hnd : l.Nodup) :
    ((l.filter (fun d => decide (d ≠ a))).length : Int)
      = (l.length : Int) - (if a ∈ l then 1 else 0) := by
  induction l with
  | nil => simp
  | cons b t ih =>
    have hbt : b ∉ t := (List.nodup_cons.mp hnd).1
    have hnt : t.Nodup := (List.nodup_cons.mp hnd).2
    rw [List.filter_cons]
    by_cases hba : b = a
    · subst hba
      rw [if_neg (by simp)]
      have hfil : t.filter (fun d => decide (d ≠ b)) = t := by
        rw [List.filter_eq_self]
        intro x hx
        simp only [decide_eq_true_eq]
        exact fun h => hbt (h ▸ hx)
      rw [hfil]
      simp
    · rw [if_pos (by simp [hba])]
      have hih := ih hnt
      by_cases hat : a ∈ t
      · rw [if_pos hat] at hih
        rw [if_pos (List.mem_cons_of_mem _ hat)]
        simp only [List.length_cons]
        push_cast at hih ⊢
        omega
      · have hnot : a ∉ b :: t := by
          intro h
          rcases List.mem_cons.mp h with h | h
          · exact hba h.symm
          · exact hat h
        rw [if_neg hat] at hih
        rw [if_neg hnot]
        simp only [List.length_cons]
        push_cast at hih ⊢
        omega

theorem kahnLoop_post (mods : Resolver) (needed : List String)
    (hU : (mods.map ModuleManifest.name).Nodup) (hneednd : needed.Nodup) :
    ∀ (fuel : Nat) (indeg : String → Int) (q order : List String),
    (∀ v ∈ needed, v ∉ order →
      indeg v = ((remainingDeps mods needed order v).length : Int)) →
    (∀ v ∈ q, v ∈ needed ∧ v ∉ order ∧ indeg v = 0) →
    (∀ v ∈ needed, v ∉ order → indeg v = 0 → v ∈ q) →
    order.Nodup → q.Nodup → (∀ v ∈ q, v ∉ order) →
    (∀ v ∈ order, v ∈ needed) →
    (∀ v d, v ∈ order → d ∈ depsOf mods v → d ∈ needed →
      d ∈ order ∧ List.indexOf d order < List.indexOf v order) →
    needed.length + 1 ≤ fuel + order.length →
    (kahnLoop mods needed fuel indeg q order).Nodup ∧
    (∀ v ∈ kahnLoop mods needed fuel indeg q order, v ∈ needed) ∧
    (∀ v ∈ order, v ∈ kahnLoop mods needed fuel indeg q order) ∧
    (∀ v d, v ∈ kahnLoop mods needed fuel indeg q order →
      d ∈ depsOf mods v → d ∈ needed →
      d ∈ kahnLoop mods needed fuel indeg q order ∧
      List.indexOf d (kahnLoop mods needed fuel indeg q order)
        < List.indexOf v (kahnLoop mods needed fuel indeg q order)) ∧
    (∀ v ∈ needed, v ∉ kahnLoop mods needed fuel indeg q order →
      ∃ d, d ∈ depsOf mods v ∧ d ∈ needed ∧
        d ∉ kahnLoop mods needed fuel indeg q order) := by
  intro fuel
  induction fuel with
  | zero =>
    intro indeg q order hK1 hK2 hK3 hond hqnd hqo hosub hK5 hfuel
    exfalso
    have hle : order.length ≤ needed.toFinset.card :=
      nodup_subset_card_le order needed hond hosub
    rw [List.toFinset_card_of_nodup hneednd] at hle
    omega
  | succ fuel ih =>
    intro indeg q order hK1 hK2 hK3 hond hqnd hqo hosub hK5 hfuel
    cases q with
    | nil =>
      have hres : kahnLoop mods needed (fuel + 1) indeg [] order = order := rfl
      rw [hres]
      refine ⟨hond, hosub, fun v hv => hv, hK5, ?_⟩
      intro v hv hvo
      have hz : indeg v ≠ 0 := by
        intro h0
        have hmem := hK3 v hv hvo h0
        simp at hmem
      have hcnt := hK1 v hv hvo
      have hlen : (remainingDeps mods needed order v).length ≠ 0 := by
        intro h0
        rw [h0] at hcnt
        exact hz (by simpa using hcnt)
      have hne : remainingDeps mods needed order v ≠ [] := by
        intro h0
        rw [h0] at hlen
        exact hlen rfl
      obtain ⟨d, hd⟩ := List.exists_mem_of_ne_nil _ hne
      obtain ⟨hd1, hd2, hd3⟩ := (mem_remainingDeps mods needed order v d).mp hd
      exact ⟨d, hd1, hd2, hd3⟩
    | cons cur rest =>
      obtain ⟨hcn, hco, hcz⟩ := hK2 cur (List.mem_cons_self _ _)
      have hdnd : (dependentsOf mods cur).Nodup := dependentsOf_nodup mods cur hU
      have hfst : ∀ v, ((dependentsOf mods cur).foldl (kahnStep needed)
          (indeg, [])).1 v
          = if v ∈ dependentsOf mods cur ∧ v ∈ needed then indeg v - 1
            else indeg v :=
        kahnFold_fst needed _ hdnd indeg [] 
      have hsnd : ((dependentsOf mods cur).foldl (kahnStep needed)
          (indeg, [])).2
          = (dependentsOf mods cur).filter
              (fun d => decide (d ∈ needed) && decide (indeg d = 1)) := by
        rw [kahnFold_snd needed _ hdnd indeg []]
        rfl
      have hres : kahnLoop mods needed (fuel + 1) indeg (cur :: rest) order
          = kahnLoop mods needed fuel
              ((dependentsOf mods cur).foldl (kahnStep needed) (indeg, [])).1
              (rest ++ ((dependentsOf mods cur).foldl (kahnStep needed)
                (indeg, [])).2)
              (order ++ [cur]) := rfl
      set indeg' := ((dependentsOf mods cur).foldl (kahnStep needed)
        (indeg, [])).1 with hid
      set pushes := ((dependentsOf mods cur).foldl (kahnStep needed)
        (indeg, [])).2 with hpu
      have hpush_mem : ∀ v, v ∈ pushes ↔
          cur ∈ depsOf mods v ∧ v ∈ needed ∧ indeg v = 1 := by
        intro v
        rw [hsnd, List.mem_filter]
        rw [← dependentsOf_iff mods cur v]
        simp
      have hdec : ∀ v, indeg' v
          = if cur ∈ depsOf mods v ∧ v ∈ needed then indeg v - 1
            else indeg v := by
        intro v
        rw [hfst v]
        simp only [dependentsOf_iff mods cur v]
      -- cur has no remaining in-subset deps
      have hcur_none : remainingDeps mods needed order cur = [] := by
        have hc1 := hK1 cur hcn hco
        rw [hcz] at hc1
        have hlen0 : (remainingDeps mods needed order cur).length = 0 := by
          omega
        exact List.length_eq_zero.mp hlen0
      -- K1 for the new state
      have hK1' : ∀ v ∈ needed, v ∉ order ++ [cur] →
          indeg' v = ((remainingDeps mods needed (order ++ [cur]) v).length : Int) := by
        intro v hv hvo
        have hvo1 : v ∉ order := fun h => hvo (List.mem_append_left _ h)
        have hvc : v ≠ cur := fun h => hvo (List.mem_append_right _ (by simp [h]))
        have hcnt := hK1 v hv hvo1
        rw [remainingDeps_snoc, length_filter_ne _ _ (remainingDeps_nodup _ _ _ _)]
        have hmem : cur ∈ remainingDeps mods needed order v ↔ cur ∈ depsOf mods v := by
          rw [mem_remainingDeps]
          constructor
          · exact fun h => h.1
          · exact fun h => ⟨h, hcn, hco⟩
        rw [hdec v]
        by_cases hc : cur ∈ depsOf mods v
        · rw [if_pos ⟨hc, hv⟩, if_pos (hmem.mpr hc), hcnt]
        · rw [if_neg (fun hh => hc hh.1), if_neg (fun hh => hc (hmem.mp hh)), hcnt]
          omega
      -- K2 for the new state
      have hK2' : ∀ v ∈ rest ++ pushes,
          v ∈ needed ∧ v ∉ order ++ [cur] ∧ indeg' v = 0 := by
        intro v hv
        rw [List.mem_append] at hv
        rcases hv with hv | hv
        · obtain ⟨h1, h2, h3⟩ := hK2 v (List.mem_cons_of_mem _ hv)
          have hvc : v ≠ cur := by
            intro h
            subst h
            exact (List.nodup_cons.mp hqnd).1 hv
          refine ⟨h1, ?_, ?_⟩
          · intro h
            rcases List.mem_append.mp h with h | h
            · exact h2 h
            · exact hvc (by simpa using h)
          · rw [hdec v]
            by_cases hc : cur ∈ depsOf mods v
            · exfalso
              have := hK1 v h1 h2
              rw [h3] at this
              have : cur ∈ remainingDeps mods needed order v :=
                (mem_remainingDeps _ _ _ _ _).mpr ⟨hc, hcn, hco⟩
              have hlen0 : (remainingDeps mods needed order v).length = 0 := by
                omega
              rw [List.length_eq_zero.mp hlen0] at this
              cases this
            · rw [if_neg (fun hh => hc hh.1)]
              exact h3
        · obtain ⟨h1, h2, h3⟩ := (hpush_mem v).mp hv
          have hvo : v ∉ order := by
            intro h
            exact hco (hK5 v cur h h1 hcn).1
          have hvc : v ≠ cur := by
            intro h
            subst h
            rw [hcz] at h3
            cases h3
          refine ⟨h2, ?_, ?_⟩
          · intro h
            rcases List.mem_append.mp h with h | h
            · exact hvo h
            · exact hvc (by simpa using h)
          · rw [hdec v, if_pos ⟨h1, h2⟩, h3]
            rfl
      -- K3 for the new state
      have hK3' : ∀ v ∈ needed, v ∉ order ++ [cur] → indeg' v = 0 →
          v ∈ rest ++ pushes := by
        intro v hv hvo hz
        have hvo1 : v ∉ order := fun h => hvo (List.mem_append_left _ h)
        have hvc : v ≠ cur := fun h => hvo (List.mem_append_right _ (by simp [h]))
        rw [hdec v] at hz
        by_cases hc : cur ∈ depsOf mods v
        · rw [if_pos ⟨hc, hv⟩] at hz
          have h1 : indeg v = 1 := by omega
          exact List.mem_append_right _ ((hpush_mem v).mpr ⟨hc, hv, h1⟩)
        · rw [if_neg (fun hh => hc hh.1)] at hz
          have := hK3 v hv hvo1 hz
          rcases List.mem_cons.mp this with h | h
          · exact absurd h hvc
          · exact List.mem_append_left _ h
      -- Nodup and disjointness for the new state
      have hond' : (order ++ [cur]).Nodup := by
        rw [List.nodup_append]
        exact ⟨hond, List.nodup_singleton _,
          fun x hx hx' => hco ((by simpa using hx' : x = cur) ▸ hx)⟩
      have hqnd' : (rest ++ pushes).Nodup := by
        rw [List.nodup_append]
        refine ⟨(List.nodup_cons.mp hqnd).2, ?_, ?_⟩
        · rw [hsnd]
          exact hdnd.filter _
        · intro x hx hx'
          obtain ⟨_, _, h1⟩ := (hpush_mem x).mp hx'
          obtain ⟨_, _, h0⟩ := hK2 x (List.mem_cons_of_mem _ hx)
          rw [h0] at h1
          cases h1
      have hqo' : ∀ v ∈ rest ++ pushes, v ∉ order ++ [cur] :=
        fun v hv => (hK2' v hv).2.1
      have hosub' : ∀ v ∈ order ++ [cur], v ∈ needed := by
        intro v hv
        rcases List.mem_append.mp hv with h | h
        · exact hosub v h
        · exact (by simpa using h : v = cur) ▸ hcn
      -- K5 for the new state
      have hK5' : ∀ v d, v ∈ order ++ [cur] → d ∈ depsOf mods v → d ∈ needed →
          d ∈ order ++ [cur] ∧
          List.indexOf d (order ++ [cur]) < List.indexOf v (order ++ [cur]) := by
        intro v d hv hd hdneed
        rcases List.mem_append.mp hv with hv | hv
        · obtain ⟨h1, h2⟩ := hK5 v d hv hd hdneed
          refine ⟨List.mem_append_left _ h1, ?_⟩
          rw [List.indexOf_append_of_mem h1, List.indexOf_append_of_mem hv]
          exact h2
        · have hvc : v = cur := by simpa using hv
          subst hvc
          have hdo : d ∈ order := by
            by_contra hdo
            have : d ∈ remainingDeps mods needed order v :=
              (mem_remainingDeps _ _ _ _ _).mpr ⟨hd, hdneed, hdo⟩
            rw [hcur_none] at this
            cases this
          refine ⟨List.mem_append_left _ hdo, ?_⟩
          rw [List.indexOf_append_of_mem hdo, List.indexOf_append_of_not_mem hco]
          have := List.indexOf_lt_length.mpr hdo
          simp only [List.indexOf_cons_self]
          omega
      have hfuel' : needed.length + 1 ≤ fuel + (order ++ [cur]).length := by
        rw [List.length_append]
        simp only [List.length_singleton]
        omega
      rw [hres]
      obtain ⟨c1, c2, c3, c4, c5⟩ := ih indeg' (rest ++ pushes) (order ++ [cur])
        hK1' hK2' hK3' hond' hqnd' hqo' hosub' hK5' hfuel'
      exact ⟨c1, c2, fun v hv => c3 v (List.mem_append_left _ hv), c4, c5⟩

/-- Facts about `topological_sort`: the produced order is duplicate-free,
    stays inside the closure, respects every in-closure forward edge
    (dependency before dependent), every unordered closure node keeps an
    unordered in-closure dependency, and the boolean result is true exactly
    when the order exhausts the closure. -/
theorem topological_sort_props (mods : Resolver) (targets : List String)
    (hU : (mods.map ModuleManifest.name).Nodup) :
    (topological_sort mods targets).2.Nodup ∧
    (∀ v ∈ (topological_sort mods targets).2, v ∈ allNeededOf mods targets) ∧
    (∀ v d, v ∈ (topological_sort mods targets).2 → d ∈ depsOf mods v →
      d ∈ allNeededOf mods targets →
      d ∈ (topological_sort mods targets).2 ∧
      List.indexOf d (topological_sort mods targets).2
        < List.indexOf v (topological_sort mods targets).2) ∧
    (∀ v ∈ allNeededOf mods targets, v ∉ (topological_sort mods targets).2 →
      ∃ d, d ∈ depsOf mods v ∧ d ∈ allNeededOf mods targets ∧
        d ∉ (topological_sort mods targets).2) ∧
    ((topological_sort mods targets).1 = true ↔
      ∀ v ∈ allNeededOf mods targets, v ∈ (topological_sort mods targets).2) := by
  obtain ⟨hmemP, hneednd, hclosed, hcomplete⟩ := allNeeded_props mods targets
  have hts2 : (topological_sort mods targets).2
      = kahnLoop mods (allNeededOf mods targets)
          ((allNeededOf mods targets).length + 1)
          (fun v => inDeg0 mods (allNeededOf mods targets) v)
          ((allNeededOf mods targets).filter
            (fun v => decide (inDeg0 mods (allNeededOf mods targets) v = 0)))
          [] := rfl
  have hts1 : (topological_sort mods targets).1
      = decide ((topological_sort mods targets).2.length
          = (allNeededOf mods targets).length) := rfl
  have hrem0 : ∀ v, remainingDeps mods (allNeededOf mods targets) [] v
      = (depsOf mods v).filter
          (fun d => decide (d ∈ allNeededOf mods targets)) := by
    intro v
    unfold remainingDeps
    apply List.filter_congr
    intro d _
    simp
  have hK1 : ∀ v ∈ allNeededOf mods targets, v ∉ ([] : List String) →
      (fun v => inDeg0 mods (allNeededOf mods targets) v) v
        = ((remainingDeps mods (allNeededOf mods targets) [] v).length : Int) := by
    intro v _ _
    rw [hrem0 v]
    rfl
  have hK2 : ∀ v ∈ (allNeededOf mods targets).filter
      (fun v => decide (inDeg0 mods (allNeededOf mods targets) v = 0)),
      v ∈ allNeededOf mods targets ∧ v ∉ ([] : List String) ∧
      (fun v => inDeg0 mods (allNeededOf mods targets) v) v = 0 := by
    intro v hv
    rw [List.mem_filter] at hv
    refine ⟨hv.1, by simp, by simpa using hv.2⟩
  have hK3 : ∀ v ∈ allNeededOf mods targets, v ∉ ([] : List String) →
      (fun v => inDeg0 mods (allNeededOf mods targets) v) v = 0 →
      v ∈ (allNeededOf mods targets).filter
        (fun v => decide (inDeg0 mods (allNeededOf mods targets) v = 0)) := by
    intro v hv _ hz
    rw [List.mem_filter]
    exact ⟨hv, by simpa using hz⟩
  obtain ⟨c1, c2, c3, c4, c5⟩ := kahnLoop_post mods (allNeededOf mods targets)
    hU hneednd ((allNeededOf mods targets).length + 1)
    (fun v => inDeg0 mods (allNeededOf mods targets) v)
    ((allNeededOf mods targets).filter
      (fun v => decide (inDeg0 mods (allNeededOf mods targets) v = 0)))
    [] hK1 hK2 hK3 List.nodup_nil (hneednd.filter _)
    (fun v _ => by simp) (fun v hv => by simp at hv)
    (fun v d hv => by simp at hv) (by omega)
  rw [hts2] at *
  refine ⟨c1, c2, c4, c5, ?_⟩
  rw [hts1, hts2]
  constructor
  · intro hlen v hv
    have hlen' : (kahnLoop mods (allNeededOf mods targets)
        ((allNeededOf mods targets).length + 1)
        (fun v => inDeg0 mods (allNeededOf mods targets) v)
        ((allNeededOf mods targets).filter
          (fun v => decide (inDeg0 mods (allNeededOf mods targets) v = 0)))
        []).length = (allNeededOf mods targets).length := of_decide_eq_true hlen
    by_contra hvo
    set r := kahnLoop mods (allNeededOf mods targets)
      ((allNeededOf mods targets).length + 1)
      (fun v => inDeg0 mods (allNeededOf mods targets) v)
      ((allNeededOf mods targets).filter
        (fun v => decide (inDeg0 mods (allNeededOf mods targets) v = 0)))
      [] with hrdef
    have hsub : ∀ x ∈ r, x ∈ (allNeededOf mods targets).erase v := by
      intro x hx
      have hxn : x ∈ allNeededOf mods targets := c2 x hx
      have hxv : x ≠ v := fun h => hvo (h ▸ hx)
      exact (List.mem_erase_of_ne hxv).mpr hxn
    have hcard : r.length ≤ ((allNeededOf mods targets).erase v).toFinset.card :=
      nodup_subset_card_le r _ c1 hsub
    have hcard2 : ((allNeededOf mods targets).erase v).toFinset.card
        ≤ ((allNeededOf mods targets).erase v).length :=
      ((allNeededOf mods targets).erase v).toFinset_card_le
    have herase : ((allNeededOf mods targets).erase v).length
        = (allNeededOf mods targets).length - 1 :=
      List.length_erase_of_mem hv
    have hpos : 0 < (allNeededOf mods targets).length :=
      List.length_pos_of_mem hv
    omega
  · intro hall
    have hle1 : (kahnLoop mods (allNeededOf mods targets)
        ((allNeededOf mods targets).length + 1)
        (fun v => inDeg0 mods (allNeededOf mods targets) v)
        ((allNeededOf mods targets).filter
          (fun v => decide (inDeg0 mods (allNeededOf mods targets) v = 0)))
        []).length ≤ (allNeededOf mods targets).length := by
      have h := nodup_subset_card_le _ _ c1 c2
      rw [List.toFinset_card_of_nodup hneednd] at h
      exact h
    have hle2 : (allNeededOf mods targets).length
        ≤ (kahnLoop mods (allNeededOf mods targets)
          ((allNeededOf mods targets).length + 1)
          (fun v => inDeg0 mods (allNeededOf mods targets) v)
          ((allNeededOf mods targets).filter
            (fun v => decide (inDeg0 mods (allNeededOf mods targets) v = 0)))
          []).length := by
      have h := nodup_subset_card_le _ _ hneednd hall
      rw [List.toFinset_card_of_nodup c1] at h
      exact h
    exact decide_eq_true (by omega)

/-- A nonempty finite set in which every node has a forward edge back into
    the set contains a cycle. -/
theorem cycle_of_successors (mods : Resolver) (S : List String) (v0 : String)
    (hv0 : v0 ∈ S)
    (hsucc : ∀ v ∈ S, ∃ d, d ∈ depsOf mods v ∧ d ∈ S) :
    ∃ u, ReachPlus mods u u := by
  classical
  let f : {v // v ∈ S} → {v // v ∈ S} := fun p =>
    ⟨(hsucc p.1 p.2).choose, (hsucc p.1 p.2).choose_spec.2⟩
  have hedge : ∀ p : {v // v ∈ S}, edgeOf mods p.1 (f p).1 := fun p =>
    (hsucc p.1 p.2).choose_spec.1
  let w : Nat → {v // v ∈ S} := fun k => f^[k] ⟨v0, hv0⟩
  have hwsucc : ∀ k, w (k + 1) = f (w k) := by
    intro k
    show f^[k + 1] _ = f (f^[k] _)
    rw [Function.iterate_succ_apply']
  have hstep : ∀ k, edgeOf mods (w k).1 (w (k + 1)).1 := by
    intro k
    rw [hwsucc k]
    exact hedge (w k)
  have hreach : ∀ i j, i ≤ j → ReachStar mods (w i).1 (w j).1 := by
    intro i j hij
    induction j with
    | zero =>
      have h0 : i = 0 := by omega
      subst h0
      exact ReachStar.refl _
    | succ j ihj =>
      by_cases h : i = j + 1
      · subst h
        exact ReachStar.refl _
      · have hij' : i ≤ j := by omega
        exact ReachStar.tail (ihj hij') (hstep j)
  have hcard : S.toFinset.card < (Finset.univ : Finset (Fin (S.length + 1))).card := by
    rw [Finset.card_univ, Fintype.card_fin]
    exact Nat.lt_succ_of_le S.toFinset_card_le
  have hmaps : ∀ k : Fin (S.length + 1), k ∈ (Finset.univ : Finset (Fin (S.length + 1))) →
      (w k.1).1 ∈ S.toFinset := fun k _ => List.mem_toFinset.mpr (w k.1).2
  obtain ⟨i, _, j, _, hne, heq⟩ :=
    Finset.exists_ne_map_eq_of_card_lt_of_maps_to hcard hmaps
  have hne' : i.1 ≠ j.1 := fun h => hne (Fin.ext h)
  rcases Nat.lt_or_ge i.1 j.1 with hlt | hge
  · refine ⟨(w i.1).1, (w (i.1 + 1)).1, hstep i.1, ?_⟩
    have := hreach (i.1 + 1) j.1 hlt
    rw [← heq] at this
    exact this
  · have hlt : j.1 < i.1 := by omega
    refine ⟨(w j.1).1, (w (j.1 + 1)).1, hstep j.1, ?_⟩
    have := hreach (j.1 + 1) i.1 hlt
    rw [heq] at this
    exact this

/-- Under an acyclic graph, Kahn's algorithm orders the whole closure:
    `topological_sort` succeeds. -/
theorem topological_sort_success_of_acyclic (mods : Resolver)
    (targets : List String) (hU : (mods.map ModuleManifest.name).Nodup)
    (hacyc : Acyclic mods) : (topological_sort mods targets).1 = true := by
  obtain ⟨c1, c2, c3, c4, c5⟩ := topological_sort_props mods targets hU
  rw [c5]
  intro v hv
  by_contra hvo
  have hvS : v ∈ (allNeededOf mods targets).filter
      (fun x => decide (x ∉ (topological_sort mods targets).2)) := by
    rw [List.mem_filter]
    exact ⟨hv, by simpa using hvo⟩
  have hsucc : ∀ x ∈ (allNeededOf mods targets).filter
      (fun x => decide (x ∉ (topological_sort mods targets).2)),
      ∃ d, d ∈ depsOf mods x ∧
        d ∈ (allNeededOf mods targets).filter
          (fun x => decide (x ∉ (topological_sort mods targets).2)) := by
    intro x hx
    rw [List.mem_filter] at hx
    obtain ⟨d, hd1, hd2, hd3⟩ := c4 x hx.1 (by simpa using hx.2)
    refine ⟨d, hd1, ?_⟩
    rw [List.mem_filter]
    exact ⟨hd2, by simpa using hd3⟩
  obtain ⟨u, hu⟩ := cycle_of_successors mods _ v hvS hsucc
  exact hacyc u hu

/-- The DFS recursion stack, most recent node first, is a chain of forward
    edges from each deeper node to the node pushed on top of it. -/
def StackChain (mods : Resolver) : List String → Prop
  | [] => True
  | [_] => True
  | v :: w :: rest => edgeOf mods w v ∧ StackChain mods (w :: rest)

theorem chain_reaches (mods : Resolver) :
    ∀ (t : List String) (h : String), StackChain mods (h :: t) →
      ∀ a ∈ h :: t, ReachStar mods a h := by
  intro t
  induction t with
  | nil =>
    intro h _ a ha
    have : a = h := by simpa using ha
    subst this
    exact ReachStar.refl _
  | cons w rest ih =>
    intro h hch a ha
    obtain ⟨hedge, hch'⟩ := hch
    rcases List.mem_cons.mp ha with rfl | ha
    · exact ReachStar.refl _
    · exact ReachStar.tail (ih w hch' a ha) hedge

/-- Under an acyclic graph the cycle DFS finds nothing: it returns false,
    restores the recursion stack and leaves the cycle set untouched. -/
theorem dfs_acyclic (mods : Resolver) (hacyc : Acyclic mods) :
    ∀ fuel : Nat,
    (∀ node visited stack cycles, StackChain mods (node :: stack) →
      ∃ v', detect_cycle_dfs mods fuel node visited stack cycles
        = (false, v', stack, cycles)) ∧
    (∀ deps node visited stack cycles,
      (∀ d ∈ deps, edgeOf mods node d) →
      (∃ st0, stack = node :: st0) → StackChain mods stack →
      ∃ v', dfsDeps mods fuel deps node visited stack cycles
        = (false, v', stack.tail, cycles)) := by
  intro fuel
  induction fuel with
  | zero =>
    constructor
    · intro node visited stack cycles _
      exact ⟨visited, rfl⟩
    · intro deps node visited stack cycles _ _ _
      cases deps with
      | nil => exact ⟨visited, rfl⟩
      | cons d t => exact ⟨visited, rfl⟩
  | succ fuel ih =>
    obtain ⟨ihA, ihB⟩ := ih
    constructor
    · intro node visited stack cycles hchain
      have hres : detect_cycle_dfs mods (fuel + 1) node visited stack cycles
          = dfsDeps mods fuel (depsOf mods node) node
              (insertName visited node) (node :: stack) cycles := rfl
      obtain ⟨v', hv'⟩ := ihB (depsOf mods node) node (insertName visited node)
        (node :: stack) cycles (fun d hd => hd) ⟨stack, rfl⟩ hchain
      refine ⟨v', ?_⟩
      rw [hres, hv']
      rfl
    · intro deps node visited stack cycles hedges hst0 hchain
      induction deps generalizing visited with
      | nil => exact ⟨visited, rfl⟩
      | cons dep rest ihrest =>
        obtain ⟨st0, rfl⟩ := hst0
        have hnotstack : dep ∉ node :: st0 := by
          intro hmem
          have hstar : ReachStar mods dep node :=
            chain_reaches mods st0 node hchain dep hmem
          exact hacyc node ⟨dep, hedges dep (List.mem_cons_self _ _), hstar⟩
        have hres : dfsDeps mods (fuel + 1) (dep :: rest) node visited
            (node :: st0) cycles
            = if decide (dep ∈ node :: st0) then
                (true, visited, node :: st0,
                  insertName (insertName cycles node) dep)
              else if decide (dep ∈ visited) then
                dfsDeps mods fuel rest node visited (node :: st0) cycles
              else
                match detect_cycle_dfs mods fuel dep visited (node :: st0)
                    cycles with
                | (true, v2, st2, cy2) => (true, v2, st2, insertName cy2 node)
                | (false, v2, st2, cy2) =>
                  dfsDeps mods fuel rest node v2 st2 cy2 := rfl
        rw [hres, if_neg (by simpa using hnotstack)]
        by_cases hvis : dep ∈ visited
        · rw [if_pos (by simpa using hvis)]
          exact ihB rest node visited (node :: st0) cycles
            (fun d hd => hedges d (List.mem_cons_of_mem _ hd)) ⟨st0, rfl⟩ hchain
        · rw [if_neg (by simpa using hvis)]
          have hchain2 : StackChain mods (dep :: node :: st0) :=
            ⟨hedges dep (List.mem_cons_self _ _), hchain⟩
          obtain ⟨v2, hv2⟩ := ihA dep visited (node :: st0) cycles hchain2
          rw [hv2]
          exact ihB rest node v2 (node :: st0) cycles
            (fun d hd => hedges d (List.mem_cons_of_mem _ hd)) ⟨st0, rfl⟩ hchain

/-- Under an acyclic graph `detect_circular_dependencies` reports nothing. -/
theorem detect_circular_empty_of_acyclic (mods : Resolver)
    (targets : List String) (hacyc : Acyclic mods) :
    detect_circular_dependencies mods targets = [] := by
  unfold detect_circular_dependencies
  suffices h : ∀ (ts : List String) (fuel : Nat)
      (st : List String × List String × List String),
      st.2.1 = [] → st.2.2 = [] →
      ((ts.foldl (fun (st : List String × List String × List String) t =>
        if decide (t ∈ st.1) then st
        else
          let r := detect_cycle_dfs mods fuel t st.1 st.2.1 st.2.2
          (r.2.1, r.2.2.1, r.2.2.2)) st).2.1 = [] ∧
       (ts.foldl (fun (st : List String × List String × List String) t =>
        if decide (t ∈ st.1) then st
        else
          let r := detect_cycle_dfs mods fuel t st.1 st.2.1 st.2.2
          (r.2.1, r.2.2.1, r.2.2.2)) st).2.2 = []) by
    exact (h targets _ ([], [], []) rfl rfl).2
  intro ts
  induction ts with
  | nil =>
    intro fuel st h1 h2
    exact ⟨h1, h2⟩
  | cons t rest ih =>
    intro fuel st h1 h2
    rw [List.foldl_cons]
    by_cases hvis : t ∈ st.1
    · rw [if_pos (by simpa using hvis)]
      exact ih fuel st h1 h2
    · rw [if_neg (by simpa using hvis)]
      obtain ⟨sv, ss, sc⟩ := st
      simp only at h1 h2
      subst h1
      subst h2
      obtain ⟨v', hv'⟩ := (dfs_acyclic mods hacyc fuel).1 t sv [] []
        (by constructor)
      simp only [hv']
      exact ih fuel (v', [], []) rfl rfl

/-! ### find_missing_dependencies characterization -/

theorem innerMissing_no_insert (mods : Resolver) (ds : List Dependency)
    (h : ∀ d ∈ ds, d.optional = false → has_module mods d.name = true) :
    ∀ acc, ds.foldl (fun acc d =>
      if !d.optional && !(has_module mods d.name) then insertName acc d.name
      else acc) acc = acc := by
  induction ds with
  | nil => intro acc; rfl
  | cons d t ih =>
    intro acc
    rw [List.foldl_cons]
    have hcond : (!d.optional && !(has_module mods d.name)) = false := by
      by_cases ho : d.optional = true
      · simp [ho]
      · have ho' : d.optional = false := by
          cases hd : d.optional
          · rfl
          · exact absurd hd ho
        simp [ho', h d (List.mem_cons_self _ _) ho']
    rw [hcond]
    simp only [Bool.false_eq_true, if_false]
    exact ih (fun x hx => h x (List.mem_cons_of_mem _ hx)) acc

theorem find_missing_empty (mods : Resolver) (targets : List String)
    (hreg : ∀ t ∈ targets, has_module mods t = true)
    (hdeps : ∀ t ∈ targets, ∀ m, findModule mods t = some m →
      ∀ d ∈ m.dependencies, d.optional = false →
        has_module mods d.name = true) :
    find_missing_dependencies mods targets = [] := by
  unfold find_missing_dependencies
  suffices h : ∀ (ts : List String), (∀ t ∈ ts, has_module mods t = true) →
      (∀ t ∈ ts, ∀ m, findModule mods t = some m →
        ∀ d ∈ m.dependencies, d.optional = false →
          has_module mods d.name = true) →
      ∀ acc, ts.foldl (fun (missing : List String) (t : String) =>
        match findModule mods t with
        | none => insertName missing t
        | some m =>
          m.dependencies.foldl (fun (acc : List String) (d : Dependency) =>
            if !d.optional && !(has_module mods d.name) then
              insertName acc d.name
            else acc) missing) acc = acc by
    exact h targets hreg hdeps []
  intro ts
  induction ts with
  | nil => intro _ _ acc; rfl
  | cons t rest ih =>
    intro h1 h2 acc
    rw [List.foldl_cons]
    have hr := h1 t (List.mem_cons_self _ _)
    unfold has_module at hr
    rw [Option.isSome_iff_exists] at hr
    obtain ⟨m, hm⟩ := hr
    rw [hm]
    dsimp only
    rw [innerMissing_no_insert mods m.dependencies
      (h2 t (List.mem_cons_self _ _) m hm) acc]
    exact ih (fun x hx => h1 x (List.mem_cons_of_mem _ hx))
      (fun x hx => h2 x (List.mem_cons_of_mem _ hx)) acc

theorem insertName_ne_nil (acc : List String) (x : String) :
    insertName acc x ≠ [] := by
  unfold insertName
  by_cases h : x ∈ acc
  · rw [if_pos h]
    intro h0
    rw [h0] at h
    cases h
  · rw [if_neg h]
    intro h0
    cases acc <;> simp at h0

theorem innerMissing_mono (mods : Resolver) (ds : List Dependency) :
    ∀ acc x, x ∈ acc → x ∈ ds.foldl (fun acc d =>
      if !d.optional && !(has_module mods d.name) then insertName acc d.name
      else acc) acc := by
  induction ds with
  | nil => intro acc x hx; exact hx
  | cons d t ih =>
    intro acc x hx
    rw [List.foldl_cons]
    apply ih
    by_cases hc : (!d.optional && !(has_module mods d.name)) = true
    · rw [if_pos hc]
      exact (insertName_mem _ _ _).mpr (Or.inl hx)
    · rw [if_neg hc]
      exact hx

theorem find_missing_nil_registered (mods : Resolver) (targets : List String)
    (h : find_missing_dependencies mods targets = []) :
    ∀ t ∈ targets, has_module mods t = true := by
  unfold find_missing_dependencies at h
  suffices hgen : ∀ (ts : List String) (acc : List String),
      ts.foldl (fun (missing : List String) (t : String) =>
      match findModule mods t with
      | none => insertName missing t
      | some m =>
        m.dependencies.foldl (fun (acc : List String) (d : Dependency) =>
          if !d.optional && !(has_module mods d.name) then
            insertName acc d.name
          else acc) missing) acc = [] →
      acc = [] ∧ ∀ t ∈ ts, has_module mods t = true by
    exact (hgen targets [] h).2
  intro ts
  induction ts with
  | nil =>
    intro acc hacc
    exact ⟨hacc, by simp⟩
  | cons t rest ih =>
    intro acc hacc
    rw [List.foldl_cons] at hacc
    cases hm : findModule mods t with
    | none =>
      rw [hm] at hacc
      dsimp only at hacc
      have := (ih _ hacc).1
      exact absurd this (insertName_ne_nil acc t)
    | some m =>
      rw [hm] at hacc
      dsimp only at hacc
      obtain ⟨hacc', hrest⟩ := ih _ hacc
      have haccnil : acc = [] := by
        by_contra hne
        obtain ⟨x, hx⟩ := List.exists_mem_of_ne_nil acc hne
        have := innerMissing_mono mods m.dependencies acc x hx
        rw [hacc'] at this
        cases this
      refine ⟨haccnil, ?_⟩
      intro x hx
      rcases List.mem_cons.mp hx with rfl | hx
      · unfold has_module
        rw [hm]
        rfl
      · exact hrest x hx

/-! ### resolve_dependencies structure -/

theorem resolve_eq_cases (mods : Resolver) (targets : List String)
    (hne : targets.isEmpty = false) :
    resolve_dependencies mods targets =
      if (find_missing_dependencies mods targets).isEmpty then
        (if (detect_circular_dependencies mods targets).isEmpty then
          ⟨(topological_sort mods targets).2, [], [],
            (topological_sort mods targets).1⟩
        else ⟨[], [], detect_circular_dependencies mods targets, false⟩)
      else ⟨[], find_missing_dependencies mods targets, [], false⟩ := by
  unfold resolve_dependencies
  rw [hne]
  rfl

/-- Mandatory dependency names declared by a registered module. -/
def mandatoryDepNames (mods : Resolver) (n : String) : List String :=
  match findModule mods n with
  | none => []
  | some m => (m.dependencies.filter (fun d => !d.optional)).map Dependency.name

theorem mandatory_mem_depsOf (mods : Resolver) (n d : String)
    (hd : d ∈ mandatoryDepNames mods n) : d ∈ depsOf mods n := by
  unfold mandatoryDepNames at hd
  cases hm : findModule mods n with
  | none => rw [hm] at hd; cases hd
  | some m =>
    rw [hm] at hd
    rw [List.mem_map] at hd
    obtain ⟨dep, hdep, rfl⟩ := hd
    rw [List.mem_filter] at hdep
    have hopt : dep.optional = false := by
      have := hdep.2
      cases h : dep.optional
      · rfl
      · rw [h] at this
        cases this
    unfold depsOf
    rw [hm]
    rw [foldl_insertName_mem]
    refine Or.inr ?_
    rw [List.mem_map]
    refine ⟨dep, ?_, rfl⟩
    rw [List.mem_filter]
    exact ⟨hdep.1, by simp [hopt]⟩

/-- On a successful sort, reachability within the order strictly decreases
    the index. -/
theorem order_reach_lt (mods : Resolver) (targets : List String)
    (hU : (mods.map ModuleManifest.name).Nodup)
    (hsucc : (topological_sort mods targets).1 = true) :
    ∀ a b, a ∈ (topological_sort mods targets).2 → ReachStar mods a b →
      b ∈ (topological_sort mods targets).2 ∧
      (a ≠ b → List.indexOf b (topological_sort mods targets).2
        < List.indexOf a (topological_sort mods targets).2) := by
  obtain ⟨c1, c2, c3, c4, c5⟩ := topological_sort_props mods targets hU
  obtain ⟨_, _, hclosed, _⟩ := allNeeded_props mods targets
  intro a b ha hr
  induction hr with
  | refl => exact ⟨ha, fun h => absurd rfl h⟩
  | tail hr he ihr =>
    rename_i v w
    obtain ⟨hv, hlt⟩ := ihr
    have hwneed : w ∈ allNeededOf mods targets := hclosed v (c2 v hv) w he
    obtain ⟨hw, hwlt⟩ := c3 v w hv he hwneed
    refine ⟨hw, fun hne => ?_⟩
    by_cases hav : a = v
    · subst hav
      exact hwlt
    · exact lt_trans hwlt (hlt hav)

/-- C2: for every registry with duplicate-free names and an acyclic
    dependency graph, and every nonempty target set whose members are
    registered and whose direct mandatory dependencies are registered,
    `resolve_dependencies` succeeds, the returned order is exactly the
    forward-edge closure of the targets, and every mandatory dependency that
    appears in the order precedes its dependent. -/
theorem claim_C2_resolve_topological_order (mods : Resolver)
    (targets : List String)
    (hU : (mods.map ModuleManifest.name).Nodup)
    (hacyc : Acyclic mods)
    (hne : targets.isEmpty = false)
    (hreg : ∀ t ∈ targets, has_module mods t = true)
    (hdeps : ∀ t ∈ targets, ∀ m, findModule mods t = some m →
      ∀ d ∈ m.dependencies, d.optional = false →
        has_module mods d.name = true) :
    (resolve_dependencies mods targets).success = true ∧
    (∀ x, x ∈ (resolve_dependencies mods targets).load_order ↔
      ∃ t ∈ targets, ReachStar mods t x) ∧
    (∀ x d, x ∈ (resolve_dependencies mods targets).load_order →
      d ∈ mandatoryDepNames mods x →
      d ∈ (resolve_dependencies mods targets).load_order →
      List.indexOf d (resolve_dependencies mods targets).load_order
        < List.indexOf x (resolve_dependencies mods targets).load_order) := by
  have hmiss := find_missing_empty mods targets hreg hdeps
  have hcirc := detect_circular_empty_of_acyclic mods targets hacyc
  have hsucc := topological_sort_success_of_acyclic mods targets hU hacyc
  have hres : resolve_dependencies mods targets
      = ⟨(topological_sort mods targets).2, [], [],
          (topological_sort mods targets).1⟩ := by
    rw [resolve_eq_cases mods targets hne, hmiss, hcirc]
    rfl
  obtain ⟨c1, c2, c3, c4, c5⟩ := topological_sort_props mods targets hU
  obtain ⟨hmemP, _, hclosed, hcomplete⟩ := allNeeded_props mods targets
  rw [hres]
  refine ⟨hsucc, ?_, ?_⟩
  · intro x
    constructor
    · intro hx
      obtain ⟨t, ht, _, hstar⟩ := hmemP x (c2 x hx)
      exact ⟨t, ht, hstar⟩
    · rintro ⟨t, ht, hstar⟩
      have hx : x ∈ allNeededOf mods targets :=
        hcomplete t ht (hreg t ht) x hstar
      exact (c5.mp hsucc) x hx
  · intro x d hx hd hdin
    have hdeps' : d ∈ depsOf mods x := mandatory_mem_depsOf mods x d hd
    have hdneed : d ∈ allNeededOf mods targets :=
      hclosed x (c2 x hx) d hdeps'
    exact (c3 x d hx hdeps' hdneed).2

/-- A registry with no edges. -/
theorem acyclic_of_no_edges (mods : Resolver)
    (h : ∀ u, depsOf mods u = []) : Acyclic mods := by
  rintro u ⟨w, hw, _⟩
  unfold edgeOf at hw
  rw [h u] at hw
  cases hw

/-- A single registered module with no dependencies. -/
def regSingle : Resolver := [mf "a" "1.0.0" []]

theorem regSingle_no_edges : ∀ u, depsOf regSingle u = [] := by
  intro u
  unfold depsOf
  cases hf : findModule regSingle u with
  | none => rfl
  | some m =>
    have hmem := (findModule_mem _ _ _ hf).1
    have : m = mf "a" "1.0.0" [] := by simpa [regSingle] using hmem
    subst this
    rfl

theorem claim_C2_resolve_topological_order_witness :
    (resolve_dependencies regSingle ["a"]).success = true ∧
    ("a" ∈ (resolve_dependencies regSingle ["a"]).load_order ↔
      ∃ t ∈ ["a"], ReachStar regSingle t "a") := by
  have h := claim_C2_resolve_topological_order regSingle ["a"]
    (by decide)
    (acyclic_of_no_edges regSingle regSingle_no_edges)
    (by decide)
    (by decide)
    (by
      intro t ht m hm d hd _
      have hmem := (findModule_mem _ _ _ hm).1
      have : m = mf "a" "1.0.0" [] := by simpa [regSingle] using hmem
      subst this
      cases hd)
  exact ⟨h.1, h.2.1 "a"⟩

/-! ### C4: cycle reporting -/

/-- C4 counterexample: in `regTwoCycles` both `a ↔ b` and `c ↔ d` are cycles
    reachable from the target `t`, but the DFS aborts at the first cycle it
    finds: the reported cyclic set is `["b", "a", "t"]` — it omits the cycle
    nodes `c` and `d` (and includes the non-cycle node `t`).  Moreover, in
    `regCycleAndMissing` the reachable cycle `x ↔ y` coexists with a missing
    mandatory dependency, and resolve returns with an empty cyclic set
    because the missing check short-circuits before cycle detection. -/
theorem claim_C4_counterexample :
    (resolve_dependencies regTwoCycles ["t"]).success = false ∧
    (resolve_dependencies regTwoCycles ["t"]).circular_deps = ["b", "a", "t"] ∧
    edgeOf regTwoCycles "c" "d" ∧ edgeOf regTwoCycles "d" "c" ∧
    ReachStar regTwoCycles "t" "c" ∧
    "c" ∉ (resolve_dependencies regTwoCycles ["t"]).circular_deps ∧
    "d" ∉ (resolve_dependencies regTwoCycles ["t"]).circular_deps ∧
    (resolve_dependencies regCycleAndMissing ["x"]).success = false ∧
    (resolve_dependencies regCycleAndMissing ["x"]).circular_deps = [] ∧
    edgeOf regCycleAndMissing "x" "y" ∧ edgeOf regCycleAndMissing "y" "x" := by
  refine ⟨by decide, by decide, by decide, by decide, ?_, by decide, by decide,
    by decide, by decide, by decide, by decide⟩
  exact ReachStar.tail (ReachStar.refl "t") (by decide)

/-- C4 (amended): whenever a cycle is reachable from a registered target,
    `resolve_dependencies` fails (through whichever of the three checks
    triggers first); the reported cyclic set, however, is only the first
    DFS-discovered cycle plus its DFS ancestors and may omit nodes of other
    reachable cycles — or be empty when the missing-dependency check
    short-circuits. -/
theorem claim_C4_resolve_fails_on_reachable_cycle (mods : Resolver)
    (targets : List String) (t u : String)
    (hU : (mods.map ModuleManifest.name).Nodup)
    (hne : targets.isEmpty = false)
    (ht : t ∈ targets)
    (hstar : ReachStar mods t u)
    (hcyc : ReachPlus mods u u) :
    (resolve_dependencies mods targets).success = false := by
  by_contra hsucc
  rw [Bool.not_eq_false] at hsucc
  rw [resolve_eq_cases mods targets hne] at hsucc
  by_cases hmiss : (find_missing_dependencies mods targets).isEmpty = true
  · rw [if_pos hmiss] at hsucc
    by_cases hcircb : (detect_circular_dependencies mods targets).isEmpty = true
    · rw [if_pos hcircb] at hsucc
      have hts : (topological_sort mods targets).1 = true := hsucc
      have hreg : has_module mods t = true :=
        find_missing_nil_registered mods targets
          (List.isEmpty_iff.mp hmiss) t ht
      obtain ⟨c1, c2, c3, c4, c5⟩ := topological_sort_props mods targets hU
      obtain ⟨_, _, hclosed, hcomplete⟩ := allNeeded_props mods targets
      have huneed : u ∈ allNeededOf mods targets :=
        hcomplete t ht hreg u hstar
      have huord : u ∈ (topological_sort mods targets).2 := (c5.mp hts) u huneed
      obtain ⟨w, he, hsw⟩ := hcyc
      have hwneed : w ∈ allNeededOf mods targets := hclosed u huneed w he
      obtain ⟨hword, hwlt⟩ := c3 u w huord he hwneed
      by_cases hwu : w = u
      · subst hwu
        exact absurd hwlt (lt_irrefl _)
      · have := (order_reach_lt mods targets hU hts w u hword hsw).2 hwu
        omega
    · rw [if_neg hcircb] at hsucc
      cases hsucc
  · rw [if_neg hmiss] at hsucc
    cases hsucc

theorem claim_C4_resolve_fails_on_reachable_cycle_witness :
    (resolve_dependencies regTwoCycles ["t"]).success = false :=
  claim_C4_resolve_fails_on_reachable_cycle regTwoCycles ["t"] "t" "a"
    (by decide) (by decide) (by decide)
    (ReachStar.tail (ReachStar.refl "t") (by decide))
    ⟨"b", by decide, ReachStar.tail (ReachStar.refl "b") (by decide)⟩

/-! ### C5: tie-break order -/

/-- C5 counterexample: in the registry holding `b` then `a` (two independent
    modules, both of in-degree zero in the subset), `resolve(["b","a"])`
    returns `["b", "a"]` — container/insertion order, not the
    lexicographically smallest node first, although `"a" < "b"`. -/
theorem claim_C5_counterexample :
    (resolve_dependencies regPairBA ["b", "a"]).success = true ∧
    (resolve_dependencies regPairBA ["b", "a"]).load_order = ["b", "a"] ∧
    inDeg0 regPairBA (allNeededOf regPairBA ["b", "a"]) "a" = 0 ∧
    inDeg0 regPairBA (allNeededOf regPairBA ["b", "a"]) "b" = 0 ∧
    "a" < "b" ∧
    (resolve_dependencies regPairBA ["b", "a"]).load_order ≠ ["a", "b"] := by
  refine ⟨by decide, by decide, by decide, by decide,
    String.lt_iff_toList_lt.mpr (by decide), by decide⟩

theorem kahnLoop_headq (mods : Resolver) (needed : List String) :
    ∀ (fuel : Nat) (indeg : String → Int) (q order : List String),
    order ≠ [] →
    (kahnLoop mods needed fuel indeg q order).head? = order.head? := by
  intro fuel
  induction fuel with
  | zero => intro indeg q order _; rfl
  | succ fuel ih =>
    intro indeg q order hord
    cases q with
    | nil => rfl
    | cons cur rest =>
      have hres : kahnLoop mods needed (fuel + 1) indeg (cur :: rest) order
          = kahnLoop mods needed fuel
              ((dependentsOf mods cur).foldl (kahnStep needed) (indeg, [])).1
              (rest ++ ((dependentsOf mods cur).foldl (kahnStep needed)
                (indeg, [])).2)
              (order ++ [cur]) := rfl
      rw [hres, ih _ _ _ (by simp)]
      cases order with
      | nil => exact absurd rfl hord
      | cons o os => rfl

/-- C5 (amended): when several nodes simultaneously have in-degree zero the
    node popped next is the FIFO-earliest in container (subset/insertion)
    order — no lexicographic comparison is performed anywhere — so the order
    is deterministic only relative to the containers' iteration order.  In
    particular the first node emitted is the first in-degree-zero node in
    subset order, whatever its name. -/
theorem claim_C5_fifo_not_lexicographic (mods : Resolver)
    (targets : List String) (v : String) (rest : List String)
    (hq : (allNeededOf mods targets).filter
      (fun x => decide (inDeg0 mods (allNeededOf mods targets) x = 0))
      = v :: rest) :
    ((topological_sort mods targets).2).head? = some v := by
  have h2 : (topological_sort mods targets).2
      = kahnLoop mods (allNeededOf mods targets)
          ((allNeededOf mods targets).length + 1)
          (fun x => inDeg0 mods (allNeededOf mods targets) x)
          ((allNeededOf mods targets).filter
            (fun x => decide (inDeg0 mods (allNeededOf mods targets) x = 0)))
          [] := rfl
  rw [h2, hq]
  have hstep : kahnLoop mods (allNeededOf mods targets)
      ((allNeededOf mods targets).length + 1)
      (fun x => inDeg0 mods (allNeededOf mods targets) x) (v :: rest) []
      = kahnLoop mods (allNeededOf mods targets)
          ((allNeededOf mods targets).length)
          ((dependentsOf mods v).foldl
            (kahnStep (allNeededOf mods targets))
            ((fun x => inDeg0 mods (allNeededOf mods targets) x), [])).1
          (rest ++ ((dependentsOf mods v).foldl
            (kahnStep (allNeededOf mods targets))
            ((fun x => inDeg0 mods (allNeededOf mods targets) x), [])).2)
          [v] := rfl
  rw [hstep, kahnLoop_headq _ _ _ _ _ _ (by simp)]
  rfl

theorem claim_C5_fifo_not_lexicographic_witness :
    ((topological_sort regPairBA ["b", "a"]).2).head? = some "b" :=
  claim_C5_fifo_not_lexicographic regPairBA ["b", "a"] "b" ["a"] (by decide)

/-! ### C3: missing-dependency detection is neither transitive nor
    version-aware -/

/-- C3 evaluation at the failing inputs: with `a → b (>= 2.0.0)` and `b`
    registered at `1.5.0`, the version requirement is unsatisfied yet
    `resolve(["a"])` succeeds with no missing report
    (`find_missing_dependencies` never consults `version_satisfies`); and
    with `a → b → c`, `c` unregistered, the missing mandatory dependency two
    hops away is not reported either — resolve succeeds and even emits the
    unregistered name `c` in the load order. -/
theorem claim_C3_code_behavior :
    (resolve_dependencies regVersionGap ["a"]).success = true ∧
    (resolve_dependencies regVersionGap ["a"]).missing_deps = [] ∧
    version_satisfies "1.5.0" ">=2.0.0" = false ∧
    has_module regVersionGap "b" = true ∧
    (resolve_dependencies regDeepMissing ["a"]).success = true ∧
    has_module regDeepMissing "c" = false ∧
    ReachStar regDeepMissing "a" "c" ∧
    "c" ∈ (resolve_dependencies regDeepMissing ["a"]).load_order := by
  refine ⟨by decide, by decide, by decide, by decide, by decide, by decide,
    ?_, by decide⟩
  exact ReachStar.tail
    (ReachStar.tail (ReachStar.refl "a")
      (show edgeOf regDeepMissing "a" "b" by decide))
    (show edgeOf regDeepMissing "b" "c" by decide)

/-! ### Registry association-list toolkit (for the supervisor claims) -/

open HelixDaemon

/-- Keys of the registry map, in container order. -/
def regKeysOf (reg : RegistryState) : List String := reg.map Prod.fst

theorem lkupReg_cons (p : String × RegEntry) (reg : RegistryState) (n : String) :
    lkupReg (p :: reg) n = if p.1 == n then some p.2 else lkupReg reg n := by
  cases hb : (p.1 == n) <;> simp [lkupReg, List.find?_cons, hb]

theorem lkupReg_isSome_iff (reg : RegistryState) (n : String) :
    (lkupReg reg n).isSome = true ↔ n ∈ regKeysOf reg := by
  induction reg with
  | nil =>
    constructor
    · intro h; cases h
    · intro h; cases h
  | cons p reg ih =>
    rw [lkupReg_cons]
    by_cases hp : p.1 = n
    · rw [if_pos (beq_iff_eq.mpr hp)]
      constructor
      · intro _
        show n ∈ p.1 :: regKeysOf reg
        exact List.mem_cons.mpr (Or.inl hp.symm)
      · intro _; rfl
    · rw [if_neg (by rw [beq_eq_false_iff_ne.mpr hp]; exact Bool.false_ne_true)]
      constructor
      · intro h
        show n ∈ p.1 :: regKeysOf reg
        exact List.mem_cons.mpr (Or.inr (ih.mp h))
      · intro h
        have h' : n = p.1 ∨ n ∈ regKeysOf reg := List.mem_cons.mp h
        rcases h' with h1 | h2
        · exact absurd h1.symm hp
        · exact ih.mpr h2

theorem lkupReg_mapUpd_some (reg : RegistryState) (n : String)
    (f : String × RegEntry → RegEntry) (e : RegEntry)
    (h : lkupReg reg n = some e) :
    lkupReg (reg.map (fun p => if p.1 = n then (n, f p) else p)) n
      = some (f (n, e)) := by
  induction reg with
  | nil => cases h
  | cons p reg ih =>
    rw [lkupReg_cons] at h
    rw [List.map_cons]
    by_cases hp : p.1 = n
    · rw [if_pos (beq_iff_eq.mpr hp)] at h
      have he : p.2 = e := Option.some.inj h
      rw [if_pos hp, lkupReg_cons,
        if_pos (show ((n, f p).1 == n) = true from beq_self_eq_true n)]
      show some (f p) = some (f (n, e))
      cases p with
      | mk p1 p2 =>
        dsimp only at hp he
        rw [hp, he]
    · rw [if_neg (by rw [beq_eq_false_iff_ne.mpr hp]; exact Bool.false_ne_true)]
        at h
      rw [if_neg hp, lkupReg_cons,
        if_neg (by rw [beq_eq_false_iff_ne.mpr hp]; exact Bool.false_ne_true)]
      exact ih h

theorem lkupReg_append_self (reg : RegistryState) (n : String) (e : RegEntry)
    (h : lkupReg reg n = none) : lkupReg (reg ++ [(n, e)]) n = some e := by
  induction reg with
  | nil =>
    rw [List.nil_append, lkupReg_cons]
    rw [if_pos (show ((n, e).1 == n) = true from beq_self_eq_true n)]
  | cons p reg ih =>
    rw [lkupReg_cons] at h
    rw [List.cons_append, lkupReg_cons]
    by_cases hp : p.1 = n
    · rw [if_pos (beq_iff_eq.mpr hp)] at h
      cases h
    · rw [if_neg (by rw [beq_eq_false_iff_ne.mpr hp]; exact Bool.false_ne_true)]
        at h
      rw [if_neg (by rw [beq_eq_false_iff_ne.mpr hp]; exact Bool.false_ne_true)]
      exact ih h

theorem lkupReg_setReg_self (reg : RegistryState) (n : String) (e : RegEntry) :
    lkupReg (setReg reg n e) n = some e := by
  unfold setReg
  split
  · rename_i h
    obtain ⟨p, hp⟩ := Option.isSome_iff_exists.mp h
    exact lkupReg_mapUpd_some reg n (fun _ => e) p hp
  · rename_i h
    apply lkupReg_append_self
    cases hl : lkupReg reg n with
    | none => rfl
    | some p => exact absurd (by rw [hl]; rfl) h

theorem lkupReg_eraseP_self_reg (reg : RegistryState) (n : String)
    (h : (regKeysOf reg).Nodup) :
    lkupReg (reg.eraseP (fun p => p.1 == n)) n = none := by
  induction reg with
  | nil => rfl
  | cons p reg ih =>
    have hns : p.1 ∉ (regKeysOf reg) ∧ (regKeysOf reg).Nodup := by
      rw [show regKeysOf (p :: reg) = p.1 :: regKeysOf reg from rfl,
        List.nodup_cons] at h
      exact h
    by_cases hp : p.1 = n
    · have herase : List.eraseP (fun p => p.1 == n) (p :: reg) = reg := by
        simp [List.eraseP_cons, beq_iff_eq.mpr hp]
      rw [herase]
      cases hl : lkupReg reg n with
      | none => rfl
      | some e =>
        exfalso
        have hmem : n ∈ regKeysOf reg :=
          (lkupReg_isSome_iff reg n).mp (by rw [hl]; rfl)
        exact hns.1 (by rw [hp]; exact hmem)
    · have herase : List.eraseP (fun p => p.1 == n) (p :: reg)
          = p :: List.eraseP (fun p => p.1 == n) reg := by
        simp [List.eraseP_cons, beq_eq_false_iff_ne.mpr hp]
      rw [herase, lkupReg_cons,
        if_neg (by rw [beq_eq_false_iff_ne.mpr hp]; exact Bool.false_ne_true)]
      exact ih hns.2

theorem regKeys_mapUpd (reg : RegistryState) (n : String)
    (f : String × RegEntry → RegEntry) :
    regKeysOf (reg.map (fun p => if p.1 = n then (n, f p) else p))
      = regKeysOf reg := by
  induction reg with
  | nil => rfl
  | cons p reg ih =>
    show (if p.1 = n then (n, f p) else p).1 ::
      regKeysOf (reg.map (fun p => if p.1 = n then (n, f p) else p))
      = p.1 :: regKeysOf reg
    by_cases hp : p.1 = n
    · rw [if_pos hp, ih, hp]
    · rw [if_neg hp, ih]

theorem stateOf_update_self (s : DaemonState) (n : String) (st : ModuleState)
    (msg : String) (h : (lkupReg s.registry n).isSome = true) :
    stateOf (update_module_state s n st msg) n = st := by
  obtain ⟨e, he⟩ := Option.isSome_iff_exists.mp h
  show (match lkupReg (update_module_state s n st msg).registry n with
    | none => ModuleState.UNKNOWN
    | some e => e.state) = st
  rw [show (update_module_state s n st msg).registry
    = s.registry.map
        (fun p => if p.1 = n then (n, ⟨p.2.manifest, st, msg⟩) else p) from rfl]
  rw [lkupReg_mapUpd_some s.registry n (fun p => ⟨p.2.manifest, st, msg⟩) e he]

/-- A string with a nonempty left part of an append is nonempty. -/
theorem append_ne_empty (a b : String) (h : a ≠ "") : a ++ b ≠ "" := by
  intro hab
  apply h
  have hd := congrArg String.data hab
  rw [String.data_append] at hd
  have h1 : a.data = [] := (List.append_eq_nil.mp hd).1
  cases a with
  | mk l => cases h1; rfl

theorem resolveFailMsg_ne (s : DaemonState) (n : String)
    (result : ResolutionResult) : resolveFailMsg s n result ≠ "" := by
  unfold resolveFailMsg
  apply append_ne_empty
  apply append_ne_empty
  apply append_ne_empty
  apply append_ne_empty
  apply append_ne_empty
  decide

theorem not_bnot_eq_true (b : Bool) (h : ¬ ((!b) = true)) : b = true := by
  cases b with
  | false => exact absurd rfl h
  | true => rfl

theorem bnot_eq_true (b : Bool) (h : (!b) = true) : b = false := by
  cases b with
  | false => rfl
  | true => cases h

/-! ### Per-operation supervisor lemmas -/

theorem regKeys_start (env : DaemonEnv) (s : DaemonState) (n : String) :
    regKeysOf (start_module env s n).2.registry = regKeysOf s.registry := by
  unfold start_module
  split
  · rfl
  · split
    · rfl
    · split
      · rfl
      · dsimp only
        split
        · exact regKeys_mapUpd _ _ _
        · exact regKeys_mapUpd _ _ _

theorem regKeys_stop (env : DaemonEnv) (s : DaemonState) (n : String) :
    regKeysOf (stop_module env s n).2.registry = regKeysOf s.registry := by
  unfold stop_module
  split
  · rfl
  · split
    · rfl
    · split
      · rfl
      · dsimp only
        split
        · exact regKeys_mapUpd _ _ _
        · exact regKeys_mapUpd _ _ _

theorem start_state_cases (env : DaemonEnv) (s : DaemonState) (n : String) :
    ((start_module env s n).1 = true →
      stateOf (start_module env s n).2 n = ModuleState.RUNNING) ∧
    ((start_module env s n).1 = false →
      stateOf (start_module env s n).2 n = stateOf s n ∨
      stateOf (start_module env s n).2 n = ModuleState.INITIALIZED) := by
  unfold start_module
  split
  · exact ⟨fun h => absurd h Bool.false_ne_true, fun _ => Or.inl rfl⟩
  · split
    · exact ⟨fun h => absurd h Bool.false_ne_true, fun _ => Or.inl rfl⟩
    · rename_i e heq
      split
      · exact ⟨fun h => absurd h Bool.false_ne_true, fun _ => Or.inl rfl⟩
      · dsimp only
        split
        · refine ⟨fun h => absurd h Bool.false_ne_true, fun _ => Or.inr ?_⟩
          exact stateOf_update_self _ n _ _ (by rw [show lkupReg
            (withLoader s (ModuleLoader.start_module env.loaderEnv s.loader
              n).2).registry n = lkupReg s.registry n from rfl, heq]; rfl)
        · refine ⟨fun _ => ?_, fun h => Bool.noConfusion h⟩
          exact stateOf_update_self _ n _ _ (by rw [show lkupReg
            (withLoader s (ModuleLoader.start_module env.loaderEnv s.loader
              n).2).registry n = lkupReg s.registry n from rfl, heq]; rfl)

theorem stop_state_cases (env : DaemonEnv) (s : DaemonState) (n : String) :
    ((stop_module env s n).1 = true →
      stateOf (stop_module env s n).2 n = ModuleState.STOPPED) ∧
    ((stop_module env s n).1 = false →
      stateOf (stop_module env s n).2 n = stateOf s n ∨
      stateOf (stop_module env s n).2 n = ModuleState.ERROR) := by
  unfold stop_module
  split
  · exact ⟨fun h => absurd h Bool.false_ne_true, fun _ => Or.inl rfl⟩
  · split
    · exact ⟨fun h => absurd h Bool.false_ne_true, fun _ => Or.inl rfl⟩
    · rename_i e heq
      split
      · exact ⟨fun h => absurd h Bool.false_ne_true, fun _ => Or.inl rfl⟩
      · dsimp only
        split
        · refine ⟨fun h => absurd h Bool.false_ne_true, fun _ => Or.inr ?_⟩
          exact stateOf_update_self _ n _ _ (by rw [show lkupReg
            (withLoader s (ModuleLoader.stop_module env.loaderEnv s.loader
              n).2).registry n = lkupReg s.registry n from rfl, heq]; rfl)
        · refine ⟨fun _ => ?_, fun h => Bool.noConfusion h⟩
          exact stateOf_update_self _ n _ _ (by rw [show lkupReg
            (withLoader s (ModuleLoader.stop_module env.loaderEnv s.loader
              n).2).registry n = lkupReg s.registry n from rfl, heq]; rfl)

theorem start_last_error_cases (env : DaemonEnv) (s : DaemonState)
    (n : String) :
    ((start_module env s n).1 = true →
      (start_module env s n).2.last_error = s.last_error) ∧
    ((start_module env s n).1 = false →
      (start_module env s n).2.last_error ≠ "" ∨
      (start_module env s n).2.last_error = s.last_error) := by
  unfold start_module
  split
  · exact ⟨fun h => absurd h Bool.false_ne_true, fun _ => Or.inr rfl⟩
  · split
    · refine ⟨fun h => absurd h Bool.false_ne_true, fun _ => Or.inl ?_⟩
      exact append_ne_empty _ _ (by decide)
    · split
      · exact ⟨fun h => absurd h Bool.false_ne_true,
          fun _ => Or.inl (show ("Not enabled" : String) ≠ "" by decide)⟩
      · dsimp only
        split
        · exact ⟨fun h => absurd h Bool.false_ne_true,
            fun _ => Or.inl (show ("Start failed" : String) ≠ "" by decide)⟩
        · exact ⟨fun _ => rfl, fun h => Bool.noConfusion h⟩

theorem stop_last_error_cases (env : DaemonEnv) (s : DaemonState)
    (n : String) :
    ((stop_module env s n).1 = true →
      (stop_module env s n).2.last_error = s.last_error) ∧
    ((stop_module env s n).1 = false →
      (stop_module env s n).2.last_error ≠ "" ∨
      (stop_module env s n).2.last_error = s.last_error) := by
  unfold stop_module
  split
  · exact ⟨fun h => absurd h Bool.false_ne_true, fun _ => Or.inr rfl⟩
  · split
    · refine ⟨fun h => absurd h Bool.false_ne_true, fun _ => Or.inl ?_⟩
      exact append_ne_empty _ _ (by decide)
    · split
      · exact ⟨fun h => absurd h Bool.false_ne_true,
          fun _ => Or.inl (show ("Not running" : String) ≠ "" by decide)⟩
      · dsimp only
        split
        · exact ⟨fun h => absurd h Bool.false_ne_true,
            fun _ => Or.inl (show ("Stop failed" : String) ≠ "" by decide)⟩
        · exact ⟨fun _ => rfl, fun h => Bool.noConfusion h⟩

theorem install_state_cases (env : DaemonEnv) (s : DaemonState)
    (pkg : Package) :
    (∀ m : ModuleManifest, pkg.parsed = some m →
      (install_module env s pkg).1 = true →
      stateOf (install_module env s pkg).2 m.name = ModuleState.INSTALLED) ∧
    ((install_module env s pkg).1 = false →
      (install_module env s pkg).2.registry = s.registry) := by
  unfold install_module
  split
  · exact ⟨fun m _ h => absurd h Bool.false_ne_true, fun _ => rfl⟩
  · split
    · exact ⟨fun m _ h => absurd h Bool.false_ne_true, fun _ => rfl⟩
    · split
      · exact ⟨fun m _ h => absurd h Bool.false_ne_true, fun _ => rfl⟩
      · split
        · rename_i hparse
          exact ⟨fun m hm => absurd (hparse ▸ hm) (by intro h; cases h),
            fun _ => rfl⟩
        · rename_i mfst hparse
          split
          · exact ⟨fun m _ h => absurd h Bool.false_ne_true, fun _ => rfl⟩
          · split
            · exact ⟨fun m _ h => absurd h Bool.false_ne_true, fun _ => rfl⟩
            · split
              · exact ⟨fun m _ h => absurd h Bool.false_ne_true, fun _ => rfl⟩
              · refine ⟨fun m hm _ => ?_,
                  fun h => Bool.noConfusion h⟩
                have hmm : mfst = m := Option.some.inj (hparse.symm.trans hm)
                subst hmm
                show (match lkupReg (setReg s.registry mfst.name
                    ⟨mfst, ModuleState.INSTALLED, ""⟩) mfst.name with
                  | none => ModuleState.UNKNOWN
                  | some e => e.state) = ModuleState.INSTALLED
                rw [lkupReg_setReg_self]

theorem install_last_error_cases (env : DaemonEnv) (s : DaemonState)
    (pkg : Package) :
    ((install_module env s pkg).1 = true →
      (install_module env s pkg).2.last_error = s.last_error) ∧
    ((install_module env s pkg).1 = false →
      (install_module env s pkg).2.last_error ≠ "" ∨
      (install_module env s pkg).2.last_error = s.last_error) := by
  unfold install_module
  split
  · exact ⟨fun h => absurd h Bool.false_ne_true,
      fun _ => Or.inl (show ("Daemon not initialized" : String) ≠ "" by decide)⟩
  · split
    · exact ⟨fun h => absurd h Bool.false_ne_true,
        fun _ => Or.inl
          (show ("Unsupported package type (expected .helx)" : String) ≠ ""
            by decide)⟩
    · split
      · exact ⟨fun h => absurd h Bool.false_ne_true,
          fun _ => Or.inl
            (show ("Extract failed: tar exit code nonzero" : String) ≠ ""
              by decide)⟩
      · split
        · exact ⟨fun h => absurd h Bool.false_ne_true,
            fun _ => Or.inl
              (show ("Manifest parse failed" : String) ≠ "" by decide)⟩
        · split
          · refine ⟨fun h => absurd h Bool.false_ne_true, fun _ => Or.inl ?_⟩
            exact append_ne_empty _ _
              (append_ne_empty _ _ (append_ne_empty _ _ (by decide)))
          · split
            · refine ⟨fun h => absurd h Bool.false_ne_true,
                fun _ => Or.inl ?_⟩
              exact append_ne_empty _ _
                (append_ne_empty _ _ (append_ne_empty _ _ (by decide)))
            · split
              · exact ⟨fun h => absurd h Bool.false_ne_true,
                  fun _ => Or.inl
                    (show ("Install to modules dir failed" : String) ≠ ""
                      by decide)⟩
              · exact ⟨fun _ => rfl,
                  fun h => Bool.noConfusion h⟩

theorem regKeys_disable (env : DaemonEnv) (s : DaemonState) (n : String) :
    regKeysOf (disable_module env s n).2.registry = regKeysOf s.registry := by
  unfold disable_module
  split
  · rfl
  · split
    · rfl
    · rename_i e heq
      split
      · rfl
      · dsimp only
        by_cases hrun : e.state = ModuleState.RUNNING
        · rw [if_pos hrun]
          cases hst : (stop_module env s n).1 with
          | false =>
            simp only [Bool.not_false, reduceIte]
            exact regKeys_stop env s n
          | true =>
            have hSTOP := (stop_state_cases env s n).1 hst
            simp only [Bool.not_true, Bool.false_eq_true, reduceIte]
            rw [if_pos (Or.inr (Or.inr (Or.inr hSTOP)))]
            cases hu : (ModuleLoader.unload_module env.loaderEnv
                (stop_module env s n).2.loader n).1 with
            | false =>
              simp only [Bool.not_false, reduceIte]
              exact (regKeys_mapUpd _ _ _).trans (regKeys_stop env s n)
            | true =>
              simp only [Bool.not_true, Bool.false_eq_true, reduceIte]
              exact (regKeys_mapUpd _ _ _).trans (regKeys_stop env s n)
        · rw [if_neg hrun]
          simp only [Bool.not_true, Bool.false_eq_true, reduceIte]
          by_cases hg : stateOf s n = ModuleState.LOADED ∨
              stateOf s n = ModuleState.INITIALIZED ∨
              stateOf s n = ModuleState.RUNNING ∨
              stateOf s n = ModuleState.STOPPED
          · rw [if_pos hg]
            cases hu : (ModuleLoader.unload_module env.loaderEnv
                s.loader n).1 with
            | false =>
              simp only [Bool.not_false, reduceIte]
              exact regKeys_mapUpd _ _ _
            | true =>
              simp only [Bool.not_true, Bool.false_eq_true, reduceIte]
              exact regKeys_mapUpd _ _ _
          · rw [if_neg hg]
            exact regKeys_mapUpd _ _ _

theorem disable_module_cases (env : DaemonEnv) (s : DaemonState) (n : String) :
    ((disable_module env s n).1 = true ∧
      stateOf (disable_module env s n).2 n = ModuleState.INSTALLED ∧
      (disable_module env s n).2.last_error = s.last_error) ∨
    ((disable_module env s n).1 = false ∧
      (stateOf (disable_module env s n).2 n = stateOf s n ∨
       stateOf (disable_module env s n).2 n = ModuleState.ERROR) ∧
      ((disable_module env s n).2.last_error ≠ "" ∨
       (disable_module env s n).2.last_error = s.last_error)) := by
  unfold disable_module
  split
  · exact Or.inr ⟨by trivial, Or.inl rfl, Or.inr rfl⟩
  · split
    · exact Or.inr ⟨by trivial, Or.inl rfl,
        Or.inl (append_ne_empty _ _ (by decide))⟩
    · rename_i e heq
      have hsome : (lkupReg s.registry n).isSome = true := by rw [heq]; rfl
      split
      · exact Or.inr ⟨by trivial, Or.inl rfl, Or.inr rfl⟩
      · dsimp only
        by_cases hrun : e.state = ModuleState.RUNNING
        · rw [if_pos hrun]
          cases hst : (stop_module env s n).1 with
          | false =>
            simp only [Bool.not_false, reduceIte]
            exact Or.inr ⟨by trivial, (stop_state_cases env s n).2 hst,
              (stop_last_error_cases env s n).2 hst⟩
          | true =>
            have hSTOP := (stop_state_cases env s n).1 hst
            have hkeep := (stop_last_error_cases env s n).1 hst
            have hsome1 : (lkupReg (stop_module env s n).2.registry n).isSome
                = true := by
              rw [lkupReg_isSome_iff, regKeys_stop env s n]
              exact (lkupReg_isSome_iff s.registry n).mp hsome
            simp only [Bool.not_true, Bool.false_eq_true, reduceIte]
            rw [if_pos (Or.inr (Or.inr (Or.inr hSTOP)))]
            cases hu : (ModuleLoader.unload_module env.loaderEnv
                (stop_module env s n).2.loader n).1 with
            | false =>
              simp only [Bool.not_false, reduceIte]
              exact Or.inr ⟨by trivial,
                Or.inr (stateOf_update_self _ n _ _ hsome1),
                Or.inl (show ("Unload failed" : String) ≠ "" by decide)⟩
            | true =>
              simp only [Bool.not_true, Bool.false_eq_true, reduceIte]
              exact Or.inl ⟨by trivial, stateOf_update_self _ n _ _ hsome1, hkeep⟩
        · rw [if_neg hrun]
          simp only [Bool.not_true, Bool.false_eq_true, reduceIte]
          by_cases hg : stateOf s n = ModuleState.LOADED ∨
              stateOf s n = ModuleState.INITIALIZED ∨
              stateOf s n = ModuleState.RUNNING ∨
              stateOf s n = ModuleState.STOPPED
          · rw [if_pos hg]
            cases hu : (ModuleLoader.unload_module env.loaderEnv
                s.loader n).1 with
            | false =>
              simp only [Bool.not_false, reduceIte]
              exact Or.inr ⟨by trivial,
                Or.inr (stateOf_update_self _ n _ _ hsome),
                Or.inl (show ("Unload failed" : String) ≠ "" by decide)⟩
            | true =>
              simp only [Bool.not_true, Bool.false_eq_true, reduceIte]
              exact Or.inl ⟨by trivial, stateOf_update_self _ n _ _ hsome, rfl⟩
          · rw [if_neg hg]
            exact Or.inl ⟨by trivial, stateOf_update_self _ n _ _ hsome, rfl⟩

theorem isSome_of_regKeys_eq (r1 r2 : RegistryState) (n : String)
    (hk : regKeysOf r1 = regKeysOf r2) (h : (lkupReg r2 n).isSome = true) :
    (lkupReg r1 n).isSome = true := by
  rw [lkupReg_isSome_iff, hk]
  exact (lkupReg_isSome_iff r2 n).mp h

theorem uninstall_module_cases (env : DaemonEnv) (s : DaemonState)
    (n : String) (hreg : (regKeysOf s.registry).Nodup) :
    ((uninstall_module env s n).1 = true ∧
      stateOf (uninstall_module env s n).2 n = ModuleState.UNKNOWN ∧
      (uninstall_module env s n).2.last_error = s.last_error) ∨
    ((uninstall_module env s n).1 = false ∧
      (stateOf (uninstall_module env s n).2 n = stateOf s n ∨
       stateOf (uninstall_module env s n).2 n = ModuleState.ERROR ∨
       stateOf (uninstall_module env s n).2 n = ModuleState.INSTALLED) ∧
      ((uninstall_module env s n).2.last_error ≠ "" ∨
       (uninstall_module env s n).2.last_error = s.last_error)) := by
  unfold uninstall_module
  split
  · exact Or.inr ⟨by trivial, Or.inl rfl, Or.inr rfl⟩
  · split
    · exact Or.inr ⟨by trivial, Or.inl rfl,
        Or.inl (append_ne_empty _ _ (by decide))⟩
    · rename_i e heq
      split
      · exact Or.inr ⟨by trivial, Or.inl rfl,
          Or.inl (show ("Dependents present" : String) ≠ "" by decide)⟩
      · dsimp only
        by_cases hni : e.state ≠ ModuleState.INSTALLED
        · rw [if_pos hni]
          rcases disable_module_cases env s n with ⟨hd1, hdstate, hdlast⟩ |
            ⟨hd1, hdstate, hdlast⟩
          · rw [hd1]
            simp only [Bool.not_true, Bool.false_eq_true, reduceIte]
            cases hrm : env.removeFilesOk n with
            | false =>
              simp only [Bool.not_false, reduceIte]
              exact Or.inr ⟨by trivial, Or.inr (Or.inr hdstate),
                Or.inl
                  (show ("Filesystem remove failed" : String) ≠ "" by decide)⟩
            | true =>
              simp only [Bool.not_true, Bool.false_eq_true, reduceIte]
              refine Or.inl ⟨by trivial, ?_, hdlast⟩
              have hnd : (regKeysOf (disable_module env s n).2.registry).Nodup :=
                by rw [regKeys_disable]; exact hreg
              show (match lkupReg ((disable_module env s n).2.registry.eraseP
                  (fun p => p.1 == n)) n with
                | none => ModuleState.UNKNOWN
                | some e => e.state) = ModuleState.UNKNOWN
              rw [lkupReg_eraseP_self_reg _ _ hnd]
          · rw [hd1]
            simp only [Bool.not_false, reduceIte]
            exact Or.inr ⟨by trivial, Or.imp id Or.inl hdstate,
              Or.inl
                (show ("Disable before uninstall failed" : String) ≠ ""
                  by decide)⟩
        · rw [if_neg hni]
          simp only [Bool.not_true, Bool.false_eq_true, reduceIte]
          cases hrm : env.removeFilesOk n with
          | false =>
            simp only [Bool.not_false, reduceIte]
            exact Or.inr ⟨by trivial, Or.inl rfl,
              Or.inl
                (show ("Filesystem remove failed" : String) ≠ "" by decide)⟩
          | true =>
            simp only [Bool.not_true, Bool.false_eq_true, reduceIte]
            refine Or.inl ⟨by trivial, ?_, by trivial⟩
            show (match lkupReg (s.registry.eraseP
                (fun p => p.1 == n)) n with
              | none => ModuleState.UNKNOWN
              | some e => e.state) = ModuleState.UNKNOWN
            rw [lkupReg_eraseP_self_reg _ _ hreg]

theorem regKeys_enableGo (env : DaemonEnv) :
    ∀ (fuel : Nat) (c : EnCall) (s : DaemonState),
      regKeysOf (enableGo env fuel c s).2.registry = regKeysOf s.registry := by
  intro fuel
  induction fuel with
  | zero => intro c s; rfl
  | succ fuel ih =>
    intro c s
    cases c with
    | en n =>
      simp only [enableGo]
      split
      · rfl
      · split
        · rfl
        · split
          · rfl
          · split
            · split
              · exact ih (EnCall.rld n) s
              · exact ih (EnCall.rld n) s
            · split
              · exact (regKeys_mapUpd _ _ _).trans (ih (EnCall.rld n) s)
              · split
                · exact (regKeys_mapUpd _ _ _).trans
                    ((regKeys_mapUpd _ _ _).trans (ih (EnCall.rld n) s))
                · exact (regKeys_mapUpd _ _ _).trans
                    ((regKeys_mapUpd _ _ _).trans (ih (EnCall.rld n) s))
    | rld n =>
      simp only [enableGo]
      split
      · rfl
      · exact ih _ s
    | loop order n =>
      cases order with
      | nil => simp only [enableGo]
      | cons dep rest =>
        simp only [enableGo]
        split
        · exact ih _ s
        · cases hlk2 : lkupReg s.registry dep with
          | none =>
            dsimp only
            simp only [Bool.not_true, Bool.false_eq_true, reduceIte]
            rw [hlk2]
            exact ih _ s
          | some e2 =>
            dsimp only
            by_cases hei : e2.state = ModuleState.INSTALLED
            · rw [if_pos hei]
              cases hE : (enableGo env fuel (EnCall.en dep) s).1 with
              | false =>
                simp only [Bool.not_false, reduceIte]
                exact ih _ s
              | true =>
                simp only [Bool.not_true, Bool.false_eq_true, reduceIte]
                cases hlk3 : lkupReg
                    (enableGo env fuel (EnCall.en dep) s).2.registry dep with
                | none =>
                  dsimp only
                  exact (ih _ _).trans (ih _ s)
                | some e3 =>
                  dsimp only
                  by_cases hg : e3.state ≠ ModuleState.RUNNING ∧
                      (e3.state = ModuleState.INITIALIZED ∨
                       e3.state = ModuleState.STOPPED)
                  · rw [if_pos hg]
                    cases hst2 : (start_module env
                        (enableGo env fuel (EnCall.en dep) s).2 dep).1 with
                    | false =>
                      simp only [Bool.not_false, reduceIte]
                      exact (regKeys_start _ _ _).trans (ih _ s)
                    | true =>
                      simp only [Bool.not_true, Bool.false_eq_true, reduceIte]
                      exact (ih _ _).trans
                        ((regKeys_start _ _ _).trans (ih _ s))
                  · rw [if_neg hg]
                    exact (ih _ _).trans (ih _ s)
            · rw [if_neg hei]
              simp only [Bool.not_true, Bool.false_eq_true, reduceIte]
              rw [hlk2]
              dsimp only
              by_cases hg : e2.state ≠ ModuleState.RUNNING ∧
                  (e2.state = ModuleState.INITIALIZED ∨
                   e2.state = ModuleState.STOPPED)
              · rw [if_pos hg]
                cases hst2 : (start_module env s dep).1 with
                | false =>
                  simp only [Bool.not_false, reduceIte]
                  exact regKeys_start _ _ _
                | true =>
                  simp only [Bool.not_true, Bool.false_eq_true, reduceIte]
                  exact (ih _ _).trans (regKeys_start _ _ _)
              · rw [if_neg hg]
                exact ih _ s

theorem enableGo_last_error (env : DaemonEnv) :
    ∀ (fuel : Nat) (c : EnCall) (s : DaemonState),
      ((enableGo env fuel c s).1 = true ∧
        (enableGo env fuel c s).2.last_error = s.last_error) ∨
      ((enableGo env fuel c s).1 = false ∧
        ((enableGo env fuel c s).2.last_error ≠ "" ∨
         (enableGo env fuel c s).2.last_error = s.last_error)) := by
  intro fuel
  induction fuel with
  | zero => intro c s; exact Or.inr ⟨rfl, Or.inr rfl⟩
  | succ fuel ih =>
    intro c s
    cases c with
    | en n =>
      simp only [enableGo]
      split
      · exact Or.inr ⟨by trivial, Or.inr rfl⟩
      · split
        · exact Or.inr ⟨by trivial,
            Or.inl (append_ne_empty _ _ (by decide))⟩
        · split
          · exact Or.inr ⟨by trivial,
              Or.inl (show ("Already enabled" : String) ≠ "" by decide)⟩
          · rcases ih (EnCall.rld n) s with ⟨h1, h2⟩ | ⟨h1, h2⟩
            · rw [h1]
              simp only [Bool.not_true, Bool.false_eq_true, reduceIte]
              cases hlr : (ModuleLoader.load_module env.loaderEnv
                  (enableGo env fuel (EnCall.rld n) s).2.loader n).1 with
              | false =>
                simp only [Bool.not_false, reduceIte]
                exact Or.inr ⟨by trivial,
                  Or.inl (append_ne_empty _ _ (by decide))⟩
              | true =>
                simp only [Bool.not_true, Bool.false_eq_true, reduceIte]
                split
                · exact Or.inr ⟨by trivial,
                    Or.inl
                      (show ("Initialize failed" : String) ≠ "" by decide)⟩
                · exact Or.inl ⟨by trivial, h2⟩
            · rw [h1]
              simp only [Bool.not_false, reduceIte]
              by_cases hemp :
                  (enableGo env fuel (EnCall.rld n) s).2.last_error = ""
              · rw [if_pos hemp]
                exact Or.inr ⟨by trivial,
                  Or.inl
                    (show ("Dependency resolution failed" : String) ≠ ""
                      by decide)⟩
              · rw [if_neg hemp]
                exact Or.inr ⟨by trivial, Or.inl hemp⟩
    | rld n =>
      simp only [enableGo]
      split
      · exact Or.inr ⟨by trivial, Or.inl (resolveFailMsg_ne s n _)⟩
      · exact ih _ s
    | loop order n =>
      cases order with
      | nil =>
        simp only [enableGo]
        exact Or.inl ⟨by trivial, by trivial⟩
      | cons dep rest =>
        simp only [enableGo]
        split
        · exact ih _ s
        · cases hlk2 : lkupReg s.registry dep with
          | none =>
            dsimp only
            simp only [Bool.not_true, Bool.false_eq_true, reduceIte]
            rw [hlk2]
            exact ih _ s
          | some e2 =>
            dsimp only
            by_cases hei : e2.state = ModuleState.INSTALLED
            · rw [if_pos hei]
              rcases ih (EnCall.en dep) s with ⟨h1, h2⟩ | ⟨h1, h2⟩
              · rw [h1]
                simp only [Bool.not_true, Bool.false_eq_true, reduceIte]
                cases hlk3 : lkupReg
                    (enableGo env fuel (EnCall.en dep) s).2.registry dep with
                | none =>
                  dsimp only
                  rcases ih (EnCall.loop rest n)
                      (enableGo env fuel (EnCall.en dep) s).2 with
                    ⟨g1, g2⟩ | ⟨g1, g2⟩
                  · exact Or.inl ⟨g1, g2.trans h2⟩
                  · exact Or.inr ⟨g1, g2.imp id (fun hh => hh.trans h2)⟩
                | some e3 =>
                  dsimp only
                  by_cases hg : e3.state ≠ ModuleState.RUNNING ∧
                      (e3.state = ModuleState.INITIALIZED ∨
                       e3.state = ModuleState.STOPPED)
                  · rw [if_pos hg]
                    cases hst2 : (start_module env
                        (enableGo env fuel (EnCall.en dep) s).2 dep).1 with
                    | false =>
                      simp only [Bool.not_false, reduceIte]
                      exact Or.inr ⟨by trivial,
                        Or.inl (append_ne_empty _ _ (append_ne_empty _ _
                          (append_ne_empty _ _ (by decide))))⟩
                    | true =>
                      simp only [Bool.not_true, Bool.false_eq_true, reduceIte]
                      have hs2 : (start_module env
                            (enableGo env fuel (EnCall.en dep) s).2
                            dep).2.last_error
                          = (enableGo env fuel (EnCall.en dep) s).2.last_error :=
                        (start_last_error_cases env _ dep).1 hst2
                      rcases ih (EnCall.loop rest n)
                          (start_module env
                            (enableGo env fuel (EnCall.en dep) s).2 dep).2 with
                        ⟨g1, g2⟩ | ⟨g1, g2⟩
                      · exact Or.inl ⟨g1, (g2.trans hs2).trans h2⟩
                      · exact Or.inr ⟨g1,
                          g2.imp id (fun hh => (hh.trans hs2).trans h2)⟩
                  · rw [if_neg hg]
                    rcases ih (EnCall.loop rest n)
                        (enableGo env fuel (EnCall.en dep) s).2 with
                      ⟨g1, g2⟩ | ⟨g1, g2⟩
                    · exact Or.inl ⟨g1, g2.trans h2⟩
                    · exact Or.inr ⟨g1, g2.imp id (fun hh => hh.trans h2)⟩
              · rw [h1]
                simp only [Bool.not_false, reduceIte]
                exact Or.inr ⟨by trivial,
                  Or.inl (append_ne_empty _ _ (append_ne_empty _ _
                    (append_ne_empty _ _ (by decide))))⟩
            · rw [if_neg hei]
              simp only [Bool.not_true, Bool.false_eq_true, reduceIte]
              rw [hlk2]
              dsimp only
              by_cases hg : e2.state ≠ ModuleState.RUNNING ∧
                  (e2.state = ModuleState.INITIALIZED ∨
                   e2.state = ModuleState.STOPPED)
              · rw [if_pos hg]
                cases hst2 : (start_module env s dep).1 with
                | false =>
                  simp only [Bool.not_false, reduceIte]
                  exact Or.inr ⟨by trivial,
                    Or.inl (append_ne_empty _ _ (append_ne_empty _ _
                      (append_ne_empty _ _ (by decide))))⟩
                | true =>
                  simp only [Bool.not_true, Bool.false_eq_true, reduceIte]
                  have hs2 : (start_module env s dep).2.last_error
                      = s.last_error :=
                    (start_last_error_cases env s dep).1 hst2
                  rcases ih (EnCall.loop rest n)
                      (start_module env s dep).2 with ⟨g1, g2⟩ | ⟨g1, g2⟩
                  · exact Or.inl ⟨g1, g2.trans hs2⟩
                  · exact Or.inr ⟨g1, g2.imp id (fun hh => hh.trans hs2)⟩
              · rw [if_neg hg]
                exact ih _ s

theorem enableGo_en_state (env : DaemonEnv) (fuel : Nat) (n : String)
    (s : DaemonState) :
    ((enableGo env (fuel + 1) (EnCall.en n) s).1 = true ∧
      stateOf (enableGo env (fuel + 1) (EnCall.en n) s).2 n
        = ModuleState.INITIALIZED) ∨
    (enableGo env (fuel + 1) (EnCall.en n) s).1 = false := by
  simp only [enableGo]
  split
  · exact Or.inr (by trivial)
  · split
    · exact Or.inr (by trivial)
    · rename_i e heq
      split
      · exact Or.inr (by trivial)
      · cases hrd : (enableGo env fuel (EnCall.rld n) s).1 with
        | false =>
          simp only [Bool.not_false, reduceIte]
          split
          · exact Or.inr (by trivial)
          · exact Or.inr (by trivial)
        | true =>
          simp only [Bool.not_true, Bool.false_eq_true, reduceIte]
          cases hlr : (ModuleLoader.load_module env.loaderEnv
              (enableGo env fuel (EnCall.rld n) s).2.loader n).1 with
          | false =>
            simp only [Bool.not_false, reduceIte]
            exact Or.inr (by trivial)
          | true =>
            simp only [Bool.not_true, Bool.false_eq_true, reduceIte]
            split
            · exact Or.inr (by trivial)
            · refine Or.inl ⟨by trivial, ?_⟩
              refine stateOf_update_self _ n _ _
                (isSome_of_regKeys_eq _ s.registry n ?_ (by rw [heq]; rfl))
              exact (regKeys_mapUpd _ _ _).trans
                (regKeys_enableGo env fuel (EnCall.rld n) s)

theorem uninstall_last_error_cases (env : DaemonEnv) (s : DaemonState)
    (n : String) :
    ((uninstall_module env s n).1 = true →
      (uninstall_module env s n).2.last_error = s.last_error) ∧
    ((uninstall_module env s n).1 = false →
      (uninstall_module env s n).2.last_error ≠ "" ∨
      (uninstall_module env s n).2.last_error = s.last_error) := by
  unfold uninstall_module
  split
  · exact ⟨fun h => Bool.noConfusion h, fun _ => Or.inr rfl⟩
  · split
    · exact ⟨fun h => Bool.noConfusion h,
        fun _ => Or.inl (append_ne_empty _ _ (by decide))⟩
    · rename_i e heq
      split
      · exact ⟨fun h => Bool.noConfusion h,
          fun _ => Or.inl (show ("Dependents present" : String) ≠ "" by decide)⟩
      · dsimp only
        by_cases hni : e.state ≠ ModuleState.INSTALLED
        · rw [if_pos hni]
          rcases disable_module_cases env s n with ⟨hd1, _, hdlast⟩ |
            ⟨hd1, _, hdlast⟩
          · rw [hd1]
            simp only [Bool.not_true, Bool.false_eq_true, reduceIte]
            cases hrm : env.removeFilesOk n with
            | false =>
              simp only [Bool.not_false, reduceIte]
              exact ⟨fun h => Bool.noConfusion h,
                fun _ => Or.inl
                  (show ("Filesystem remove failed" : String) ≠ "" by decide)⟩
            | true =>
              simp only [Bool.not_true, Bool.false_eq_true, reduceIte]
              exact ⟨fun _ => hdlast, fun h => Bool.noConfusion h⟩
          · rw [hd1]
            simp only [Bool.not_false, reduceIte]
            exact ⟨fun h => Bool.noConfusion h,
              fun _ => Or.inl
                (show ("Disable before uninstall failed" : String) ≠ ""
                  by decide)⟩
        · rw [if_neg hni]
          simp only [Bool.not_true, Bool.false_eq_true, reduceIte]
          cases hrm : env.removeFilesOk n with
          | false =>
            simp only [Bool.not_false, reduceIte]
            exact ⟨fun h => Bool.noConfusion h,
              fun _ => Or.inl
                (show ("Filesystem remove failed" : String) ≠ "" by decide)⟩
          | true =>
            simp only [Bool.not_true, Bool.false_eq_true, reduceIte]
            exact ⟨fun _ => by trivial, fun h => Bool.noConfusion h⟩

/-- Oracles all succeed except removing the module files from disk. -/
def envRemoveFail : DaemonEnv :=
  ⟨⟨fun _ => true, fun _ => true, fun _ => true, fun _ => 0, fun _ => 0,
    fun _ => 0⟩, "1.0.0", "1.0.0", fun _ => false⟩

/-- C1 counterexample: two failing operations that do NOT leave the module
    state unchanged and are not the claim's two Error exceptions.  (1) With
    the start hook failing, `start_module` on a STOPPED module fails and
    forcibly rewrites the state to INITIALIZED — the claim says it should
    remain STOPPED.  (2) With file removal failing, `uninstall_module` on an
    INITIALIZED module fails after the implicit disable has already
    succeeded, leaving the module INSTALLED (neither unchanged nor ERROR). -/
theorem claim_C1_counterexample :
    (start_module envStartFail
      (oneModState ModuleState.STOPPED ⟨true, false⟩) "m").1 = false ∧
    stateOf (oneModState ModuleState.STOPPED ⟨true, false⟩) "m"
      = ModuleState.STOPPED ∧
    stateOf (start_module envStartFail
      (oneModState ModuleState.STOPPED ⟨true, false⟩) "m").2 "m"
      = ModuleState.INITIALIZED ∧
    (ModuleState.INITIALIZED ≠ ModuleState.STOPPED) ∧
    (uninstall_module envRemoveFail
      (oneModState ModuleState.INITIALIZED ⟨true, false⟩) "m").1 = false ∧
    stateOf (uninstall_module envRemoveFail
      (oneModState ModuleState.INITIALIZED ⟨true, false⟩) "m").2 "m"
      = ModuleState.INSTALLED := by
  decide

/-- C1 (amended): per-operation transition table of the supervisor.  On
    success: install registers the package's module at INSTALLED, uninstall
    removes the record (state reads UNKNOWN), enable leaves the target
    INITIALIZED, disable INSTALLED, start RUNNING, stop STOPPED.  On
    failure the target's state is unchanged, except: stop failure and
    disable's stop/unload failures leave ERROR, start failure (from
    INITIALIZED or STOPPED) forcibly sets INITIALIZED, and uninstall failure
    can leave ERROR (failed implicit disable) or INSTALLED (disable
    succeeded, file removal failed).  The registry is assumed to be a map
    (no duplicate keys). -/
theorem claim_C1_state_transitions (env : DaemonEnv) (s : DaemonState)
    (n : String) (pkg : Package) (fuel : Nat)
    (hreg : (regKeysOf s.registry).Nodup) :
    (∀ m : ModuleManifest, pkg.parsed = some m →
      (install_module env s pkg).1 = true →
      stateOf (install_module env s pkg).2 m.name = ModuleState.INSTALLED) ∧
    ((install_module env s pkg).1 = false →
      (install_module env s pkg).2.registry = s.registry) ∧
    ((uninstall_module env s n).1 = true →
      stateOf (uninstall_module env s n).2 n = ModuleState.UNKNOWN) ∧
    ((uninstall_module env s n).1 = false →
      stateOf (uninstall_module env s n).2 n = stateOf s n ∨
      stateOf (uninstall_module env s n).2 n = ModuleState.ERROR ∨
      stateOf (uninstall_module env s n).2 n = ModuleState.INSTALLED) ∧
    ((enable_module env fuel s n).1 = true →
      stateOf (enable_module env fuel s n).2 n = ModuleState.INITIALIZED) ∧
    ((disable_module env s n).1 = true →
      stateOf (disable_module env s n).2 n = ModuleState.INSTALLED) ∧
    ((disable_module env s n).1 = false →
      stateOf (disable_module env s n).2 n = stateOf s n ∨
      stateOf (disable_module env s n).2 n = ModuleState.ERROR) ∧
    ((start_module env s n).1 = true →
      stateOf (start_module env s n).2 n = ModuleState.RUNNING) ∧
    ((start_module env s n).1 = false →
      stateOf (start_module env s n).2 n = stateOf s n ∨
      stateOf (start_module env s n).2 n = ModuleState.INITIALIZED) ∧
    ((stop_module env s n).1 = true →
      stateOf (stop_module env s n).2 n = ModuleState.STOPPED) ∧
    ((stop_module env s n).1 = false →
      stateOf (stop_module env s n).2 n = stateOf s n ∨
      stateOf (stop_module env s n).2 n = ModuleState.ERROR) := by
  refine ⟨(install_state_cases env s pkg).1, (install_state_cases env s pkg).2,
    ?_, ?_, ?_, ?_, ?_, (start_state_cases env s n).1,
    (start_state_cases env s n).2, (stop_state_cases env s n).1,
    (stop_state_cases env s n).2⟩
  · intro h
    rcases uninstall_module_cases env s n hreg with ⟨_, h2, _⟩ | ⟨h1, _, _⟩
    · exact h2
    · exact absurd (h1.symm.trans h) Bool.false_ne_true
  · intro h
    rcases uninstall_module_cases env s n hreg with ⟨h1, _, _⟩ | ⟨_, h2, _⟩
    · exact absurd (h1.symm.trans h) (by decide)
    · exact h2
  · intro h
    cases fuel with
    | zero => exact Bool.noConfusion h
    | succ fuel =>
      rcases enableGo_en_state env fuel n s with ⟨_, h2⟩ | h1
      · exact h2
      · exact absurd (h1.symm.trans h) Bool.false_ne_true
  · intro h
    rcases disable_module_cases env s n with ⟨_, h2, _⟩ | ⟨h1, _, _⟩
    · exact h2
    · exact absurd (h1.symm.trans h) Bool.false_ne_true
  · intro h
    rcases disable_module_cases env s n with ⟨h1, _, _⟩ | ⟨_, h2, _⟩
    · exact absurd (h1.symm.trans h) (by decide)
    · exact h2

theorem claim_C1_state_transitions_witness :
    (regKeysOf (oneModState ModuleState.STOPPED ⟨true, false⟩).registry).Nodup
    ∧ stateOf (start_module envStartFail
        (oneModState ModuleState.STOPPED ⟨true, false⟩) "m").2 "m"
      = ModuleState.INITIALIZED :=
  ⟨by decide,
    ((claim_C1_state_transitions envStartFail
        (oneModState ModuleState.STOPPED ⟨true, false⟩) "m"
        ⟨true, true, none, true⟩ 0
        (by decide)).2.2.2.2.2.2.2.2.1 (by decide)).resolve_left
      (by decide)⟩

/-- C7 counterexample: a failed `stop_module` records "Not running" in
    `last_error_`; the subsequent successful `start_module` does NOT clear
    it — `last_error()` still returns "Not running" after the success.
    Also, `disable_module` on an already-INSTALLED module fails yet records
    nothing. -/
theorem claim_C7_counterexample :
    (stop_module envAllOk
      (oneModState ModuleState.INITIALIZED ⟨true, false⟩) "m").1 = false ∧
    (stop_module envAllOk
      (oneModState ModuleState.INITIALIZED ⟨true, false⟩) "m").2.last_error
      = "Not running" ∧
    (start_module envAllOk
      (stop_module envAllOk
        (oneModState ModuleState.INITIALIZED ⟨true, false⟩) "m").2 "m").1
      = true ∧
    (start_module envAllOk
      (stop_module envAllOk
        (oneModState ModuleState.INITIALIZED ⟨true, false⟩) "m").2
      "m").2.last_error = "Not running" ∧
    ("Not running" : String) ≠ "" ∧
    (disable_module envAllOk
      (oneModState ModuleState.INSTALLED ⟨false, false⟩) "m").1 = false ∧
    (disable_module envAllOk
      (oneModState ModuleState.INSTALLED ⟨false, false⟩) "m").2.last_error
      = "" := by
  decide

/-- C7 (amended): a successful supervisor operation leaves `last_error_`
    exactly as it was — it is never cleared, so a stale message from an
    earlier failure persists across successes.  A failed operation either
    records a nonempty message or leaves `last_error_` unchanged; the
    unchanged failures are the uninitialized-daemon rejections (except
    install, which records) and disable of an already-INSTALLED module. -/
theorem claim_C7_last_error_accounting (env : DaemonEnv) (s : DaemonState)
    (n : String) (pkg : Package) (fuel : Nat) :
    ((install_module env s pkg).1 = true →
      (install_module env s pkg).2.last_error = s.last_error) ∧
    ((install_module env s pkg).1 = false →
      (install_module env s pkg).2.last_error ≠ "" ∨
      (install_module env s pkg).2.last_error = s.last_error) ∧
    ((uninstall_module env s n).1 = true →
      (uninstall_module env s n).2.last_error = s.last_error) ∧
    ((uninstall_module env s n).1 = false →
      (uninstall_module env s n).2.last_error ≠ "" ∨
      (uninstall_module env s n).2.last_error = s.last_error) ∧
    ((enable_module env fuel s n).1 = true →
      (enable_module env fuel s n).2.last_error = s.last_error) ∧
    ((enable_module env fuel s n).1 = false →
      (enable_module env fuel s n).2.last_error ≠ "" ∨
      (enable_module env fuel s n).2.last_error = s.last_error) ∧
    ((disable_module env s n).1 = true →
      (disable_module env s n).2.last_error = s.last_error) ∧
    ((disable_module env s n).1 = false →
      (disable_module env s n).2.last_error ≠ "" ∨
      (disable_module env s n).2.last_error = s.last_error) ∧
    ((start_module env s n).1 = true →
      (start_module env s n).2.last_error = s.last_error) ∧
    ((start_module env s n).1 = false →
      (start_module env s n).2.last_error ≠ "" ∨
      (start_module env s n).2.last_error = s.last_error) ∧
    ((stop_module env s n).1 = true →
      (stop_module env s n).2.last_error = s.last_error) ∧
    ((stop_module env s n).1 = false →
      (stop_module env s n).2.last_error ≠ "" ∨
      (stop_module env s n).2.last_error = s.last_error) := by
  refine ⟨(install_last_error_cases env s pkg).1,
    (install_last_error_cases env s pkg).2,
    (uninstall_last_error_cases env s n).1,
    (uninstall_last_error_cases env s n).2,
    ?_, ?_, ?_, ?_,
    (start_last_error_cases env s n).1, (start_last_error_cases env s n).2,
    (stop_last_error_cases env s n).1, (stop_last_error_cases env s n).2⟩
  · intro h
    rcases enableGo_last_error env fuel (EnCall.en n) s with ⟨_, h2⟩ |
      ⟨h1, _⟩
    · exact h2
    · exact absurd (h1.symm.trans h) Bool.false_ne_true
  · intro h
    rcases enableGo_last_error env fuel (EnCall.en n) s with ⟨h1, _⟩ |
      ⟨_, h2⟩
    · exact absurd (h1.symm.trans h) (by decide)
    · exact h2
  · intro h
    rcases disable_module_cases env s n with ⟨_, _, h2⟩ | ⟨h1, _, _⟩
    · exact h2
    · exact absurd (h1.symm.trans h) Bool.false_ne_true
  · intro h
    rcases disable_module_cases env s n with ⟨h1, _, _⟩ | ⟨_, _, h2⟩
    · exact absurd (h1.symm.trans h) (by decide)
    · exact h2

end HelixDaemon

/-- The six supervisor operations of C1/C7. -/
inductive DaemonOp where
  | install (pkg : Package)
  | uninstall (n : String)
  | enable (n : String)
  | disable (n : String)
  | start (n : String)
  | stop (n : String)

/-- One supervisor operation (fuel only feeds `enable`'s recursion). -/
def stepDaemon (env : DaemonEnv) (fuel : Nat) (op : DaemonOp)
    (s : DaemonState) : Bool × DaemonState :=
  match op with
  | .install pkg => HelixDaemon.install_module env s pkg
  | .uninstall n => HelixDaemon.uninstall_module env s n
  | .enable n => HelixDaemon.enable_module env fuel s n
  | .disable n => HelixDaemon.disable_module env s n
  | .start n => HelixDaemon.start_module env s n
  | .stop n => HelixDaemon.stop_module env s n

/-- The module an operation is about (for install: the packaged manifest's
    name). -/
def targetOf : DaemonOp → String
  | .install pkg => (pkg.parsed.map ModuleManifest.name).getD ""
  | .uninstall n => n
  | .enable n => n
  | .disable n => n
  | .start n => n
  | .stop n => n

end Helix
